import Mathlib

set_option linter.unusedVariables false

/-!
Verification development for the SafeJNI generic invocation and type-conversion
engine (src/safejni.h and the implementation unit src/unnamed/part_000).

The managed runtime (the JVM) is an excluded collaborator of the library: it is
modelled as explicit state (`Env`) holding a heap of opaque object values, the
live local and global reference lists, the pending-exception slot, and ghost
accounting logs (every local/global reference creation and deletion is logged so
that exactly-once release properties can be stated).  Each definition below
embeds the source function of the same name; machine integers are modelled as
`Int`/`Nat` (no arithmetic on them is performed by the embedded code paths),
JNI references are `Nat` with `0` playing the role of the null reference, and
C++ exceptions (`JNIException`) are modelled with `Except String` carrying the
exception message.  The trailing character packs of the compile-time signature
strings drop the explicit terminating NUL byte, which is a C-string encoding
artifact.
-/

namespace safejni

/-- The native value types that have `CPPToJNIConversor` / `JNIToCPPConversor`
template specializations in src/safejni.h. -/
inductive NativeType where
  | tVoid | tBool | tI8 | tU8 | tI16 | tI32 | tI64 | tF32 | tF64
  | tString | tConstCharPtr | tVecString | tVecByte | tVecJObject
  | tMap | tObjPtr
deriving DecidableEq

/-- The character pack of `CPPToJNIConversor<T>::JNIType` for each supported
native type (src/safejni.h lines 228-352), without the terminating NUL. -/
def jniTypeChars : NativeType → List Char
  | .tVoid => ['V']
  | .tBool => ['Z']
  | .tI8 => ['B']
  | .tU8 => ['C']
  | .tI16 => ['S']
  | .tI32 => ['I']
  | .tI64 => ['J']
  | .tF32 => ['F']
  | .tF64 => ['D']
  | .tString => "Ljava/lang/String;".data
  | .tConstCharPtr => "Ljava/lang/String;".data
  | .tVecString => "[Ljava/lang/String;".data
  | .tVecByte => ['[', 'B']
  | .tVecJObject => "[Ljava/lang/Object;".data
  | .tMap => "Ljava/util/HashMap;".data
  | .tObjPtr => "Ljava/lang/Object;".data

/-- The type descriptor of one native type as a string. -/
def descriptor (t : NativeType) : String := String.mk (jniTypeChars t)

/-- Embeds `getJNISignature<T, Args...>` (src/safejni.h lines 663-671): the
compile-time concatenation of a left parenthesis, the parameter type
descriptors, a right parenthesis and the return type descriptor. -/
def getJNISignature (ret : NativeType) (args : List NativeType) : String :=
  String.mk ('(' :: ((args.map jniTypeChars).flatten ++ (')' :: jniTypeChars ret)))

/-- Which native types have a `CPPToJNIConversor` specialization with a usable
outbound `convert` function (src/safejni.h lines 228-352; the deleted pointer
conversions and the `void` conversor, which has no `convert`, are excluded). -/
def hasOutboundConversor : NativeType → Bool
  | .tString | .tConstCharPtr | .tVecString | .tVecByte | .tObjPtr | .tMap => true
  | .tBool | .tI8 | .tU8 | .tI16 | .tI32 | .tI64 | .tF32 | .tF64 => true
  | .tVoid | .tVecJObject => false

/-- Which native types have a `JNIToCPPConversor` specialization defining an
inbound `convert` (src/safejni.h lines 357-390: exactly `std::string`,
`std::vector<std::string>`, `std::vector<uint8_t>` and `std::vector<jobject>`;
primitives are returned directly by `JNICaller` without a conversor, and no
inbound conversor exists for `std::map<std::string, std::string>`). -/
def hasInboundConversor : NativeType → Bool
  | .tString | .tVecString | .tVecByte | .tVecJObject => true
  | _ => false

/-- Values stored in the modelled JVM heap. -/
inductive JValue where
  | jstr (s : String)
  | jobjArr (elems : List Nat)
  | jbyteArr (bytes : List Nat)
  | jfloatArr (bits : List Nat)
  | jcls (name : String)
  | jthrow (msg : String)
  | jmapObj (entries : List (String × String))
  | jobj (clsName : String)
deriving DecidableEq

/-- The class name reported by `GetObjectClass` for a heap value. -/
def classOf : JValue → String
  | .jstr _ => "java/lang/String"
  | .jobjArr _ => "[Ljava/lang/Object;"
  | .jbyteArr _ => "[B"
  | .jfloatArr _ => "[F"
  | .jcls _ => "java/lang/Class"
  | .jthrow _ => "java/lang/Throwable"
  | .jmapObj _ => "java/util/HashMap"
  | .jobj c => c

/-- The state of the modelled JNI environment.  References are `Nat`, `0` is
null, fresh references are handed out from `nextRef`.  The `localCreates`,
`localDeletes`, `globalCreates` and `globalDeletes` fields are ghost accounting
logs recording every reference-lifetime primitive issued, so that leak and
double-release properties can be stated.  `methodTable` and `fieldTable` list
the `(className, memberName, signature)` triples the modelled JVM can resolve. -/
structure Env where
  heap : Nat → Option JValue
  nextRef : Nat
  locals : List Nat
  globals : List Nat
  pending : Option Nat
  localCreates : List Nat
  localDeletes : List Nat
  globalCreates : List Nat
  globalDeletes : List Nat
  methodTable : List (String × String × String)
  fieldTable : List (String × String × String)

/-- JNI `NewLocalRef`-style allocation: a fresh local reference to `v`. -/
def Env.newLocalRef (e : Env) (v : JValue) : Nat × Env :=
  (e.nextRef,
   { e with
      heap := fun r => if r = e.nextRef then some v else e.heap r,
      nextRef := e.nextRef + 1,
      locals := e.nextRef :: e.locals,
      localCreates := e.nextRef :: e.localCreates })

/-- JNI `DeleteLocalRef`: removes the reference from the live local list and
logs the deletion. -/
def Env.deleteLocalRef (e : Env) (r : Nat) : Env :=
  { e with locals := e.locals.erase r, localDeletes := r :: e.localDeletes }

/-- JNI `NewGlobalRef`: a fresh global reference to the object `r` refers to
(null in, null out). -/
def Env.newGlobalRef (e : Env) (r : Nat) : Nat × Env :=
  match e.heap r with
  | none => (0, e)
  | some v =>
    (e.nextRef,
     { e with
        heap := fun x => if x = e.nextRef then some v else e.heap x,
        nextRef := e.nextRef + 1,
        globals := e.nextRef :: e.globals,
        globalCreates := e.nextRef :: e.globalCreates })

/-- JNI `DeleteGlobalRef`. -/
def Env.deleteGlobalRef (e : Env) (r : Nat) : Env :=
  { e with globals := e.globals.erase r, globalDeletes := r :: e.globalDeletes }

/-- Overwrites the heap value a reference points to (array/collection stores). -/
def Env.setRef (e : Env) (r : Nat) (v : JValue) : Env :=
  { e with heap := fun x => if x = r then some v else e.heap x }

/-- JNI `SetObjectArrayElement`: stores reference `r` at index `i` of the
object array `a` (no-op on a non-array target). -/
def Env.setObjectArrayElement (e : Env) (a i r : Nat) : Env :=
  match e.heap a with
  | some (.jobjArr es) => e.setRef a (.jobjArr (es.set i r))
  | _ => e

/-- JNI `SetByteArrayRegion` over the whole array. -/
def Env.setByteArrayRegion (e : Env) (a : Nat) (data : List Nat) : Env :=
  match e.heap a with
  | some (.jbyteArr _) => e.setRef a (.jbyteArr data)
  | _ => e

/-- The `put` invocation on the modelled `java/util/HashMap` object. -/
def Env.hashMapPut (e : Env) (hm : Nat) (k v : String) : Env :=
  match e.heap hm with
  | some (.jmapObj m) => e.setRef hm (.jmapObj (m ++ [(k, v)]))
  | _ => e

/-- JNI `FindClass`: modelled as always producing a fresh local class
reference (class-loading failures of the excluded JVM are not load-bearing for
any of the claims below). -/
def Env.findClass (e : Env) (name : String) : Nat × Env :=
  e.newLocalRef (.jcls name)

/-- JNI `GetObjectClass`: a fresh local reference to the class of the object. -/
def Env.getObjectClass (e : Env) (r : Nat) : Nat × Env :=
  match e.heap r with
  | some v => e.newLocalRef (.jcls (classOf v))
  | none => (0, e)

/-- JNI `GetMethodID`/`GetStaticMethodID`: resolves against `methodTable`;
returns the null token `0` when the member does not exist (the modelled JVM
reports the failure through the null result alone). -/
def Env.getMethodID (e : Env) (classId : Nat) (methodName sig : String) : Nat :=
  match e.heap classId with
  | some (.jcls cname) => if e.methodTable.contains (cname, methodName, sig) then 1 else 0
  | _ => 0

/-- JNI `GetFieldID`/`GetStaticFieldID`, resolved against `fieldTable`. -/
def Env.getFieldID (e : Env) (classId : Nat) (fieldName sig : String) : Nat :=
  match e.heap classId with
  | some (.jcls cname) => if e.fieldTable.contains (cname, fieldName, sig) then 1 else 0
  | _ => 0

/-- Well-formedness of an environment: the null reference is never handed out,
and no reference at or above the allocation watermark is populated. -/
structure Env.WF (e : Env) : Prop where
  pos : 0 < e.nextRef
  heapFresh : ∀ r, e.nextRef ≤ r → e.heap r = none

/-- Deleted-reference bookkeeping of one embedded step: the allocation
watermark only grows, and every deletion the step logs is of the null
reference or of a reference the step itself allocated (at or above the
starting watermark). -/
def DeletesFresh (e e2 : Env) : Prop :=
  e.nextRef ≤ e2.nextRef ∧
  ∃ ds, e2.localDeletes = ds ++ e.localDeletes ∧
    ∀ d ∈ ds, d = 0 ∨ (e.nextRef ≤ d ∧ d < e2.nextRef)

/-- Embeds `Tools::checkException` (src/unnamed/part_000 lines 259-271): when an
exception is pending it is described and cleared, its message is decoded (the
source does this by invoking the `getMessage` getter of `java/lang/Throwable`
through the same JNI interface; the modelled JVM answers with the message stored
in the throwable value), and a `JNIException` carrying that message is thrown;
otherwise nothing happens.  The thrown message is returned as `some msg`. -/
def Tools.checkException (e : Env) : Option String × Env :=
  (e.pending.map (fun r =>
     match e.heap r with
     | some (.jthrow m) => m
     | _ => ""),
   { e with pending := none })

/-- Embeds `Tools::clearException` (src/unnamed/part_000 lines 273-285): a
pending exception is described, cleared and its decoded message logged, but no
native exception is raised. -/
def Tools.clearException (e : Env) : Env :=
  { e with pending := none }

/-- Embeds `Tools::toJString` (src/safejni.h line 95): `NewStringUTF`. -/
def Tools.toJString (e : Env) (s : String) : Nat × Env :=
  e.newLocalRef (.jstr s)

/-- The throw idiom wrapped around `Tools::checkException`: when the check
produced a message the embedded function raises `JNIException` with it (the
environment of the check is kept either way), otherwise the value `v` is
returned. -/
def raiseOr (p : Option String × Env) (v : α) : Except String α × Env :=
  (match p.1 with
   | some m => .error m
   | none => .ok v,
   p.2)

/-- Embeds `Tools::toString` (src/unnamed/part_000 lines 128-141): a null
string handle yields the empty string immediately; otherwise the characters are
read and `checkException` may raise. -/
def Tools.toString (e : Env) (r : Nat) : Except String String × Env :=
  if r = 0 then (.ok "", e)
  else
    let s := match e.heap r with
      | some (.jstr s) => s
      | _ => ""
    raiseOr (Tools.checkException e) s

/-- The element-writing loop of `Tools::toJObjectArray` (src/unnamed/part_000
lines 90-94): converts each native string and stores it at the next index.  As
in the source, the per-element local string references are not deleted here. -/
def Tools.toJObjectArrayLoop (a : Nat) (i : Nat) (data : List String) (e : Env) : Env :=
  match data with
  | [] => e
  | s :: rest =>
    let p := Tools.toJString e s
    Tools.toJObjectArrayLoop a (i + 1) rest (p.2.setObjectArrayElement a i p.1)

/-- Embeds `Tools::toJObjectArray` for `std::vector<std::string>`
(src/unnamed/part_000 lines 85-99): `FindClass`, `NewObjectArray` (zero-filled),
the element loop, `DeleteLocalRef` of the class reference, `checkException`. -/
def Tools.toJObjectArray (e : Env) (data : List String) : Except String Nat × Env :=
  let pc := e.findClass "java/lang/String"
  let pa := pc.2.newLocalRef (.jobjArr (List.replicate data.length 0))
  let e3 := Tools.toJObjectArrayLoop pa.1 0 data pa.2
  let e4 := e3.deleteLocalRef pc.1
  raiseOr (Tools.checkException e4) pa.1

/-- Embeds the `Tools::toJObjectArray` overload for `std::vector<uint8_t>`
(src/unnamed/part_000 lines 101-106): `NewByteArray` then `SetByteArrayRegion`
over the whole array, then `checkException`. -/
def Tools.toJByteArray (e : Env) (data : List Nat) : Except String Nat × Env :=
  let pa := e.newLocalRef (.jbyteArr (List.replicate data.length 0))
  let e2 := pa.2.setByteArrayRegion pa.1 data
  raiseOr (Tools.checkException e2) pa.1

/-- The entry loop of `Tools::toHashMap` (src/unnamed/part_000 lines 115-122):
for each entry two local string references are created, `put` is invoked on the
map object, and both local references are deleted. -/
def Tools.toHashMapLoop (hm : Nat) (entries : List (String × String)) (e : Env) : Env :=
  match entries with
  | [] => e
  | (k, v) :: rest =>
    let pk := e.newLocalRef (.jstr k)
    let pv := pk.2.newLocalRef (.jstr v)
    let e3 := pv.2.hashMapPut hm k v
    let e4 := (e3.deleteLocalRef pk.1).deleteLocalRef pv.1
    Tools.toHashMapLoop hm rest e4

/-- Embeds `Tools::toHashMap` (src/unnamed/part_000 lines 108-126): `FindClass`
of `java/util/HashMap`, `NewObject` of an empty map, the put loop,
`DeleteLocalRef` of the class reference, `checkException`. -/
def Tools.toHashMap (e : Env) (data : List (String × String)) : Except String Nat × Env :=
  let pc := e.findClass "java/util/HashMap"
  let pm := pc.2.newLocalRef (.jmapObj [])
  let e3 := Tools.toHashMapLoop pm.1 data pm.2
  let e4 := e3.deleteLocalRef pc.1
  raiseOr (Tools.checkException e4) pm.1

/-- JNI `GetObjectArrayElement`: returns a fresh local reference to the element
object, or the null reference for a null/absent element. -/
def Env.getObjectArrayElement (e : Env) (er : Nat) : Nat × Env :=
  if er = 0 then (0, e)
  else
    match e.heap er with
    | some v => e.newLocalRef v
    | none => (0, e)

/-- The element-reading loop of `Tools::toVectorString` (src/unnamed/part_000
lines 148-152): `GetObjectArrayElement`, `toString` (which may raise),
`push_back`, `DeleteLocalRef` of the element reference. -/
def Tools.toVectorStringLoop (e : Env) (ers : List Nat) : Except String (List String) × Env :=
  match ers with
  | [] => (.ok [], e)
  | er :: rest =>
    let pr := e.getObjectArrayElement er
    let ps := Tools.toString pr.2 pr.1
    match ps.1 with
    | .error m => (.error m, ps.2)
    | .ok s =>
      let q := Tools.toVectorStringLoop (ps.2.deleteLocalRef pr.1) rest
      match q.1 with
      | .error m => (.error m, q.2)
      | .ok ss => (.ok (s :: ss), q.2)

/-- Embeds `Tools::toVectorString` (src/unnamed/part_000 lines 143-156): a null
array contributes no elements; `checkException` runs after the loop. -/
def Tools.toVectorString (e : Env) (a : Nat) : Except String (List String) × Env :=
  let pr :=
    if a = 0 then ((.ok [] : Except String (List String)), e)
    else
      match e.heap a with
      | some (.jobjArr es) => Tools.toVectorStringLoop e es
      | _ => ((.ok [] : Except String (List String)), e)
  match pr.1 with
  | .error m => (.error m, pr.2)
  | .ok ss => raiseOr (Tools.checkException pr.2) ss

/-- Embeds `Tools::toVectorByte` (src/unnamed/part_000 lines 158-167): a null
array yields the empty vector immediately; otherwise the region is read and
`checkException` may raise. -/
def Tools.toVectorByte (e : Env) (a : Nat) : Except String (List Nat) × Env :=
  if a = 0 then (.ok [], e)
  else
    let bytes := match e.heap a with
      | some (.jbyteArr bs) => bs
      | _ => []
    raiseOr (Tools.checkException e) bytes

/-- Embeds `Tools::toVectorFloat` (src/unnamed/part_000 lines 169-178): a null
array yields the empty vector immediately; otherwise the region is read with
`GetFloatArrayRegion` and `checkException` may raise.  Float payloads are
carried as opaque bit patterns (the function only copies them; no
floating-point arithmetic occurs). -/
def Tools.toVectorFloat (e : Env) (a : Nat) : Except String (List Nat) × Env :=
  if a = 0 then (.ok [], e)
  else
    let floats := match e.heap a with
      | some (.jfloatArr fs) => fs
      | _ => []
    raiseOr (Tools.checkException e) floats

/-- Embeds the `JNIMethodInfo` record (src/safejni.h lines 72-80). -/
structure JNIMethodInfo where
  classId : Nat
  methodId : Nat
  weak_ : Bool
deriving DecidableEq

/-- Embeds `~JNIMethodInfo` (src/unnamed/part_000 lines 41-48): a weak record
releases nothing; otherwise a non-null class reference is deleted. -/
def JNIMethodInfo.destroy (mi : JNIMethodInfo) (e : Env) : Env :=
  if mi.weak_ then e
  else if mi.classId ≠ 0 then e.deleteLocalRef mi.classId
  else e

/-- Embeds `Tools::getStaticMethodInfo` (src/unnamed/part_000 lines 193-215):
`FindClass`, `checkException`, null-class check, `GetStaticMethodID`,
`checkException`, null-method check; the returned record owns the class
reference (`weak_ = false`).  Exception messages are abridged. -/
def Tools.getStaticMethodInfo (e : Env) (className methodName : String) (sig : String) :
    Except String JNIMethodInfo × Env :=
  let pc := e.findClass className
  let c1 := Tools.checkException pc.2
  match c1.1 with
  | some m => (.error m, c1.2)
  | none =>
    if pc.1 = 0 then (.error ("Could not find the given class: " ++ className), c1.2)
    else
      let mid := c1.2.getMethodID pc.1 methodName sig
      let c2 := Tools.checkException c1.2
      match c2.1 with
      | some m => (.error m, c2.2)
      | none =>
        if mid = 0 then
          (.error ("Could not find the given " ++ methodName ++ " static method in the given " ++
                   className ++ " class using the " ++ sig ++ " signature."), c2.2)
        else (.ok ⟨pc.1, mid, false⟩, c2.2)

/-- Embeds the `Tools::getMethodInfo(jclass, ...)` overload (src/unnamed/part_000
lines 241-257): `checkException`, `GetMethodID`, `checkException`, null-method
check; the caller-supplied class reference is NOT owned (`weak_ = true`), so the
record destructor will not release it. -/
def Tools.getMethodInfoCls (e : Env) (classId : Nat) (methodName : String) (sig : String) :
    Except String JNIMethodInfo × Env :=
  let c1 := Tools.checkException e
  match c1.1 with
  | some m => (.error m, c1.2)
  | none =>
    let mid := c1.2.getMethodID classId methodName sig
    let c2 := Tools.checkException c1.2
    match c2.1 with
    | some m => (.error m, c2.2)
    | none =>
      if mid = 0 then
        (.error ("Could not find the given " ++ methodName ++
                 " method in the given class using the " ++ sig ++ " signature."), c2.2)
      else (.ok ⟨classId, mid, true⟩, c2.2)

/-- The process-wide `JavaVM` collaborator: the status `AttachCurrentThread`
would report for the calling thread and the environment reference it would
write on success. -/
structure JavaVMModel where
  attachStatus : Int
  envRef : Nat
deriving DecidableEq

/-- Embeds `Tools::attachJniEnv` (src/unnamed/part_000 lines 63-73).  The local
variable `jniEnv` is declared without an initializer; when `javaVM` is null the
attach branch is skipped entirely and the indeterminate value is returned,
modelled as `.ok none`.  When the VM is set, a negative attach status throws
`JNIException` and a non-negative one returns the attached environment. -/
def Tools.attachJniEnv (javaVM : Option JavaVMModel) : Except String (Option Nat) :=
  match javaVM with
  | none => .ok none
  | some vm =>
    if vm.attachStatus < 0 then
      .error "Could not attach the JNI environment to the current thread."
    else .ok (some vm.envRef)

/-- A native argument value, covering the `CPPToJNIConversor` specializations
exercised by the claims.  `vObjPtr` carries the underlying handle of a
`JNIObjectPtr` argument. -/
inductive CppVal where
  | vBool (b : Bool)
  | vI8 (v : Int)
  | vU8 (v : Nat)
  | vI16 (v : Int)
  | vI32 (v : Int)
  | vI64 (v : Int)
  | vStr (s : String)
  | vVecStr (l : List String)
  | vVecByte (l : List Nat)
  | vMap (m : List (String × String))
  | vObjPtr (r : Nat)
deriving DecidableEq

/-- The native type of an argument value, used for signature derivation. -/
def CppVal.ty : CppVal → NativeType
  | .vBool _ => .tBool
  | .vI8 _ => .tI8
  | .vU8 _ => .tU8
  | .vI16 _ => .tI16
  | .vI32 _ => .tI32
  | .vI64 _ => .tI64
  | .vStr _ => .tString
  | .vVecStr _ => .tVecString
  | .vVecByte _ => .tVecByte
  | .vMap _ => .tMap
  | .vObjPtr _ => .tObjPtr

/-- A converted JNI argument: a primitive value or an object reference. -/
inductive JArg where
  | prim (v : Int)
  | ref (r : Nat)
deriving DecidableEq

/-- The outbound `CPPToJNIConversor<T>::convert` dispatch (src/safejni.h lines
228-352): primitives convert by value, the object types go through the
corresponding `Tools` conversion, and a `JNIObjectPtr` argument passes its
underlying handle unchanged. -/
def CPPToJNIConversorConvert (e : Env) (v : CppVal) : Except String JArg × Env :=
  match v with
  | .vBool b => (.ok (.prim (if b then 1 else 0)), e)
  | .vI8 n => (.ok (.prim n), e)
  | .vU8 n => (.ok (.prim (Int.ofNat n)), e)
  | .vI16 n => (.ok (.prim n), e)
  | .vI32 n => (.ok (.prim n), e)
  | .vI64 n => (.ok (.prim n), e)
  | .vStr s =>
    let pr := Tools.toJString e s
    (.ok (.ref pr.1), pr.2)
  | .vVecStr l =>
    let p := Tools.toJObjectArray e l
    ((p.1.map .ref : Except String JArg), p.2)
  | .vVecByte l =>
    let p := Tools.toJByteArray e l
    ((p.1.map .ref : Except String JArg), p.2)
  | .vMap m =>
    let p := Tools.toHashMap e m
    ((p.1.map .ref : Except String JArg), p.2)
  | .vObjPtr r => (.ok (.ref r), e)

/-- Embeds `JNIParamsCheck<T>::needDeleteLocal` (src/safejni.h lines 203-211):
true for every type except `JNIObjectPtr`. -/
def needDeleteLocal : CppVal → Bool
  | .vObjPtr _ => false
  | _ => true

/-- Embeds the `JNIDestructorDecider` dispatch (src/safejni.h lines 713-739):
object-like converted values are added to the destructor, primitives are not. -/
def destructorDecide : JArg → List Nat
  | .prim _ => []
  | .ref r => [r]

/-- Embeds `JNIParamConversor` (src/safejni.h lines 744-755): converts one
argument and reports the references to be registered with the
`JNIParamDestructor`. -/
def JNIParamConversor (e : Env) (v : CppVal) : Except String (JArg × List Nat) × Env :=
  let p := CPPToJNIConversorConvert e v
  ((p.1.map fun j => (j, if needDeleteLocal v then destructorDecide j else [])), p.2)

/-- Converts the whole argument pack in order, accumulating the registered
references.  When a conversion throws, the references registered so far are
still reported (they sit in the already-constructed `JNIParamDestructor`). -/
def marshal (e : Env) (args : List CppVal) : Except String (List JArg) × List Nat × Env :=
  match args with
  | [] => (.ok [], [], e)
  | a :: rest =>
    let p := JNIParamConversor e a
    match p.1 with
    | .error m => (.error m, [], p.2)
    | .ok (j, regs) =>
      let q := marshal p.2 rest
      match q.1 with
      | .error m => (.error m, regs ++ q.2.1, q.2.2)
      | .ok js => (.ok (j :: js), regs ++ q.2.1, q.2.2)

/-- Embeds `~JNIParamDestructor` (src/safejni.h lines 690-697 and the
zero-parameter specialization at 700-709): every non-null registered reference
is deleted, then `Tools::clearException` drains any pending failure. -/
def JNIParamDestructorRun (regs : List Nat) (e : Env) : Env :=
  Tools.clearException (regs.foldl (fun acc r => if r ≠ 0 then acc.deleteLocalRef r else acc) e)

/-- The native return type of a call, restricted to the return categories that
have `JNICaller` specializations together with an inbound conversion
(src/safejni.h lines 396-652). -/
inductive RetType where
  | rVoid | rBool | rI8 | rU8 | rI16 | rI32 | rI64 | rF32 | rF64
  | rString | rVecString | rVecByte | rObjPtr
deriving DecidableEq

/-- The native type used when deriving a signature for a return category. -/
def RetType.toNativeType : RetType → NativeType
  | .rVoid => .tVoid
  | .rBool => .tBool
  | .rI8 => .tI8
  | .rU8 => .tU8
  | .rI16 => .tI16
  | .rI32 => .tI32
  | .rI64 => .tI64
  | .rF32 => .tF32
  | .rF64 => .tF64
  | .rString => .tString
  | .rVecString => .tVecString
  | .rVecByte => .tVecByte
  | .rObjPtr => .tObjPtr

/-- A decoded native result value. -/
inductive RetVal where
  | rUnit
  | rPrim (v : Int)
  | rStr (s : String)
  | rVecStr (l : List String)
  | rVecByte (l : List Nat)
  | rObj (r : Nat)
deriving DecidableEq

/-- What the managed-side target does when the JVM dispatches to it.  The JVM
itself is an excluded collaborator (spec section 6): an object-returning call
materializes a fresh local reference to the produced value, and a raising call
returns null/zero and leaves a fresh throwable pending. -/
inductive CallOutcome where
  | retPrim (v : Int)
  | retObj (v : JValue)
  | retNull
  | raises (msg : String)
deriving DecidableEq

/-- One `CallXMethod`/`CallStaticXMethod`/`GetXField` primitive of the modelled
JVM: yields the object reference and the primitive value the call produced. -/
def jvmInvoke (e : Env) (outcome : CallOutcome) : Nat × Int × Env :=
  match outcome with
  | .retPrim v => (0, v, e)
  | .retObj v =>
    let pr := e.newLocalRef v
    (pr.1, 0, pr.2)
  | .retNull => (0, 0, e)
  | .raises m =>
    let pr := e.newLocalRef (.jthrow m)
    (0, 0, { pr.2 with pending := some pr.1 })

/-- The shared result-handling bodies of the `JNICaller` specializations
(src/safejni.h lines 396-652), used alike by `callStatic`, `callInstance` and
the field getters: the `void` and primitive callers return directly with no
exception check; the object-returning default caller runs the inbound
`JNIToCPPConversor` on the result and then deletes the non-null result
reference; the `JNIObjectPtr` caller wraps the raw result reference. -/
def JNICallerRun (ret : RetType) (e : Env) (outcome : CallOutcome) :
    Except String RetVal × Env :=
  match ret with
  | .rVoid =>
    let pr := jvmInvoke e outcome
    (.ok .rUnit, pr.2.2)
  | .rBool | .rI8 | .rU8 | .rI16 | .rI32 | .rI64 | .rF32 | .rF64 =>
    let pr := jvmInvoke e outcome
    (.ok (.rPrim pr.2.1), pr.2.2)
  | .rString =>
    let pr := jvmInvoke e outcome
    let ps := Tools.toString pr.2.2 pr.1
    match ps.1 with
    | .error m => (.error m, ps.2)
    | .ok s => (.ok (.rStr s), if pr.1 ≠ 0 then ps.2.deleteLocalRef pr.1 else ps.2)
  | .rVecString =>
    let pr := jvmInvoke e outcome
    let ps := Tools.toVectorString pr.2.2 pr.1
    match ps.1 with
    | .error m => (.error m, ps.2)
    | .ok l => (.ok (.rVecStr l), if pr.1 ≠ 0 then ps.2.deleteLocalRef pr.1 else ps.2)
  | .rVecByte =>
    let pr := jvmInvoke e outcome
    let ps := Tools.toVectorByte pr.2.2 pr.1
    match ps.1 with
    | .error m => (.error m, ps.2)
    | .ok l => (.ok (.rVecByte l), if pr.1 ≠ 0 then ps.2.deleteLocalRef pr.1 else ps.2)
  | .rObjPtr =>
    let pr := jvmInvoke e outcome
    (.ok (.rObj pr.1), pr.2.2)

/-- The observable outcome of one generic call: the decoded result or the
propagated `JNIException` message, the references that were registered with the
`JNIParamDestructor` during argument conversion, the signature string that was
handed to the handle resolver, and the final environment. -/
structure CallResult where
  result : Except String RetVal
  registered : List Nat
  resolvedSig : String
  env : Env

/-- Embeds `safejni::CallStatic` (src/safejni.h lines 760-783).  The derived
signature `sig` is computed exactly as in the source when the caller-supplied
signature is empty, but — as in the source — the resolver call receives
`signature.c_str()`, not `sig`; `sig` is a dead local.  The
`JNIParamDestructor` is declared after the resolution and runs on every exit
path of the remainder, followed by the `JNIMethodInfo` release (reverse
declaration order). -/
def CallStatic (ret : RetType) (className methodName signature : String)
    (args : List CppVal) (outcome : CallOutcome) (e : Env) : CallResult :=
  let _sig :=
    if signature = "" then getJNISignature ret.toNativeType (args.map CppVal.ty)
    else signature
  let pm := Tools.getStaticMethodInfo e className methodName signature
  match pm.1 with
  | .error m => { result := .error m, registered := [], resolvedSig := signature, env := pm.2 }
  | .ok mi =>
    let q := marshal pm.2 args
    match q.1 with
    | .error m =>
      { result := .error m, registered := q.2.1, resolvedSig := signature,
        env := mi.destroy (JNIParamDestructorRun q.2.1 q.2.2) }
    | .ok _jargs =>
      let c := JNICallerRun ret q.2.2 outcome
      { result := c.1, registered := q.2.1, resolvedSig := signature,
        env := mi.destroy (JNIParamDestructorRun q.2.1 c.2) }

/-- Embeds the instance-method template `safejni::Call` (src/safejni.h lines
786-810): here the derived signature IS the one passed to the resolver when the
caller-supplied signature is empty.  The class reference is caller-supplied, so
the resolver marks it weak and its record destructor releases nothing. -/
def Call (ret : RetType) (inst : Nat) (classId : Nat) (methodName signature : String)
    (args : List CppVal) (outcome : CallOutcome) (e : Env) : CallResult :=
  let sig :=
    if signature = "" then getJNISignature ret.toNativeType (args.map CppVal.ty)
    else signature
  let pm := Tools.getMethodInfoCls e classId methodName sig
  match pm.1 with
  | .error m => { result := .error m, registered := [], resolvedSig := sig, env := pm.2 }
  | .ok mi =>
    let q := marshal pm.2 args
    match q.1 with
    | .error m =>
      { result := .error m, registered := q.2.1, resolvedSig := sig,
        env := mi.destroy (JNIParamDestructorRun q.2.1 q.2.2) }
    | .ok _jargs =>
      let c := JNICallerRun ret q.2.2 outcome
      { result := c.1, registered := q.2.1, resolvedSig := sig,
        env := mi.destroy (JNIParamDestructorRun q.2.1 c.2) }

/-- Embeds `safejni::Get` (src/safejni.h lines 835-855): when the supplied
signature is empty the field descriptor of the return type is used;
`GetObjectClass`, `GetFieldID`, deletion of the non-null class reference, then
the `JNICaller` field read (the null field token is handed to the JVM unchecked,
as in the source). -/
def GetF (ret : RetType) (inst : Nat) (propertyName signature : String)
    (outcome : CallOutcome) (e : Env) : CallResult :=
  let sig := if signature = "" then descriptor ret.toNativeType else signature
  let pc := e.getObjectClass inst
  let _fid := pc.2.getFieldID pc.1 propertyName sig
  let e2 := if pc.1 ≠ 0 then pc.2.deleteLocalRef pc.1 else pc.2
  let c := JNICallerRun ret e2 outcome
  { result := c.1, registered := [], resolvedSig := sig, env := c.2 }

/-- Embeds `safejni::Set` (src/safejni.h lines 857-877): resolution as in
`Get`, then `JNICaller<T>::setField`, whose object case converts the value
outbound (without registering it anywhere) and stores it. -/
def SetF (value : CppVal) (inst : Nat) (propertyName signature : String) (e : Env) : CallResult :=
  let sig := if signature = "" then descriptor value.ty else signature
  let pc := e.getObjectClass inst
  let _fid := pc.2.getFieldID pc.1 propertyName sig
  let e2 := if pc.1 ≠ 0 then pc.2.deleteLocalRef pc.1 else pc.2
  let c := CPPToJNIConversorConvert e2 value
  { result := c.1.map (fun _ => .rUnit), registered := [], resolvedSig := sig, env := c.2 }

/-- Embeds the `JNIObject` proxy state (src/safejni.h lines 139-180): the
wrapped handle, the override class-name and member-signature fields, and the
ownership flags. -/
structure JNIObjectModel where
  inst : Nat
  className : String
  memberSignature : String
  globalRef : Bool
  weak : Bool
deriving DecidableEq

/-- The result of one proxy operation: the call outcome, the proxy state after
the `NameAndSignatureClear` scope guard has run, the class reference the call
obtained, the signature handed to the resolver, and the final environment. -/
structure ProxyCallResult where
  result : Except String RetVal
  proxy : JNIObjectModel
  classRef : Nat
  resolvedSig : String
  env : Env

/-- Embeds `JNIObject::Call` (src/safejni.h lines 960-973): a
`NameAndSignatureClear` guard (lines 187-199) clears both override fields when
the scope exits, on success and on failure alike; the class reference comes
from `GetObjectClass` when no class-name override is set and from `FindClass`
otherwise; the inner `safejni::Call` receives the member-signature override. -/
def JNIObject.Call (o : JNIObjectModel) (ret : RetType) (methodName : String)
    (args : List CppVal) (outcome : CallOutcome) (e : Env) : ProxyCallResult :=
  let pc :=
    if o.className = "" then e.getObjectClass o.inst
    else e.findClass o.className
  let cr := safejni.Call ret o.inst pc.1 methodName o.memberSignature args outcome pc.2
  { result := cr.result,
    proxy := { o with className := "", memberSignature := "" },
    classRef := pc.1,
    resolvedSig := cr.resolvedSig,
    env := cr.env }

/-- Embeds `JNIObject::Get` (src/safejni.h lines 976-982): the guard clears the
override fields; the inner `safejni::Get` receives the member-signature
override (the class-name override is not consulted by `Get`). -/
def JNIObject.Get (o : JNIObjectModel) (ret : RetType) (propertyName : String)
    (outcome : CallOutcome) (e : Env) : CallResult × JNIObjectModel :=
  let cr := GetF ret o.inst propertyName o.memberSignature outcome e
  (cr, { o with className := "", memberSignature := "" })

/-- Embeds `JNIObject::Set` (src/safejni.h lines 984-988). -/
def JNIObject.Set (o : JNIObjectModel) (propertyName : String) (value : CppVal)
    (e : Env) : CallResult × JNIObjectModel :=
  let cr := SetF value o.inst propertyName o.memberSignature e
  (cr, { o with className := "", memberSignature := "" })

/-- Embeds `JNIObject::makeGlobalRef` (src/unnamed/part_000 lines 301-306):
when the proxy does not yet hold a global reference, its handle is replaced by
a fresh `NewGlobalRef` of itself and the flag is set. -/
def JNIObject.makeGlobalRef (o : JNIObjectModel) (e : Env) : JNIObjectModel × Env :=
  if o.globalRef then (o, e)
  else
    let pr := e.newGlobalRef o.inst
    ({ o with inst := pr.1, globalRef := true }, pr.2)

/-- Embeds `JNIObject::CreateGlobal` (src/unnamed/part_000 lines 308-314): a
fresh proxy whose handle is `NewGlobalRef(obj)`, followed by `makeGlobalRef()`
on the proxy. -/
def JNIObject.CreateGlobal (obj : Nat) (e : Env) : JNIObjectModel × Env :=
  let o0 : JNIObjectModel :=
    { inst := 0, className := "", memberSignature := "", globalRef := false, weak := false }
  let pr := e.newGlobalRef obj
  JNIObject.makeGlobalRef { o0 with inst := pr.1 } pr.2

/-- Embeds `~JNIObject` (src/unnamed/part_000 lines 287-299): a weak proxy
releases nothing; otherwise a non-null handle is released as a global or local
reference according to the flag. -/
def JNIObject.destroy (o : JNIObjectModel) (e : Env) : Env :=
  if o.weak then e
  else if o.inst ≠ 0 then
    if o.globalRef then e.deleteGlobalRef o.inst else e.deleteLocalRef o.inst
  else e

/-- Outbound-then-inbound round trip for a native string through
`Tools::toJString` and `Tools::toString`. -/
def roundTripString (e : Env) (s : String) : Except String String :=
  let pr := Tools.toJString e s
  (Tools.toString pr.2 pr.1).1

/-- Outbound-then-inbound round trip for a native string vector through
`Tools::toJObjectArray` and `Tools::toVectorString`. -/
def roundTripVecString (e : Env) (l : List String) : Except String (List String) :=
  let p := Tools.toJObjectArray e l
  match p.1 with
  | .error m => .error m
  | .ok a => (Tools.toVectorString p.2 a).1

/-- Outbound-then-inbound round trip for a native byte vector through the byte
overload of `Tools::toJObjectArray` and `Tools::toVectorByte`. -/
def roundTripVecByte (e : Env) (l : List Nat) : Except String (List Nat) :=
  let p := Tools.toJByteArray e l
  match p.1 with
  | .error m => .error m
  | .ok a => (Tools.toVectorByte p.2 a).1

/-- A pristine environment: empty heap, no pending exception, no tables. -/
def env0 : Env :=
  { heap := fun _ => none, nextRef := 1, locals := [], globals := [], pending := none,
    localCreates := [], localDeletes := [], globalCreates := [], globalDeletes := [],
    methodTable := [], fieldTable := [] }

/-- Environment whose JVM resolves `com/example/Foo.bar` with the derived
signature of a one-int-argument boolean method. -/
def envC1 : Env := { env0 with methodTable := [("com/example/Foo", "bar", "(I)Z")] }

/-- Environment whose JVM resolves the static method `C.m` with the signature
of a one-string-argument void method. -/
def envC2 : Env := { env0 with methodTable := [("C", "m", "(Ljava/lang/String;)V")] }

/-- Environment whose JVM holds a throwable at reference 1 and has it pending. -/
def envC3 : Env :=
  { env0 with heap := fun r => if r = 1 then some (.jthrow "boom") else none,
              nextRef := 2, pending := some 1 }

/-- Environment holding one `com/example/Foo` object at reference 1 whose class
has a no-argument void method `bar`. -/
def envC9 : Env :=
  { env0 with heap := fun r => if r = 1 then some (.jobj "com/example/Foo") else none,
              nextRef := 2, locals := [1],
              methodTable := [("com/example/Foo", "bar", "()V")] }

/-- The proxy wrapping the object of `envC9`, with no overrides set. -/
def proxyC9 : JNIObjectModel :=
  { inst := 1, className := "", memberSignature := "", globalRef := true, weak := false }

/-- Environment holding one plain object at reference 1. -/
def envC10 : Env :=
  { env0 with heap := fun r => if r = 1 then some (.jobj "com/example/Thing") else none,
              nextRef := 2, locals := [1] }

/-! ### String helper lemmas -/

theorem string_mk_append (a b : List Char) : String.mk a ++ String.mk b = String.mk (a ++ b) := rfl

theorem string_foldl_append (l : List String) (a : String) :
    l.foldl (fun r s => r ++ s) a = a ++ l.foldl (fun r s => r ++ s) "" := by
  induction l generalizing a with
  | nil => simp
  | cons s l ih =>
    simp only [List.foldl_cons]
    rw [ih (a ++ s), ih ("" ++ s)]
    simp [String.append_assoc]

theorem string_join_cons (s : String) (l : List String) :
    String.join (s :: l) = s ++ String.join l := by
  simp only [String.join, List.foldl_cons]
  rw [string_foldl_append]
  simp

theorem join_map_descriptor (args : List NativeType) :
    String.join (args.map descriptor) = String.mk (args.map jniTypeChars).flatten := by
  induction args with
  | nil => rfl
  | cons a args ih =>
    rw [List.map_cons, string_join_cons, ih, List.map_cons, List.flatten_cons]
    rw [descriptor, string_mk_append]

/-! ### Claim C4 -/

/-- C4: for every return type and parameter type list, the derived signature is
exactly the left parenthesis, the concatenated parameter descriptors, the right
parenthesis and the return descriptor; and the derivation is a pure function,
so deriving twice for the same combination yields identical strings. -/
theorem c4_signature_shape_and_deterministic (ret : NativeType) (args : List NativeType) :
    getJNISignature ret args
      = "(" ++ String.join (args.map descriptor) ++ ")" ++ descriptor ret ∧
    getJNISignature ret args = getJNISignature ret args := by
  refine ⟨?_, rfl⟩
  rw [join_map_descriptor]
  show String.mk _ = String.mk ['('] ++ String.mk _ ++ String.mk [')'] ++ String.mk _
  rw [string_mk_append, string_mk_append, string_mk_append]
  simp [getJNISignature]

/-! ### Claim C1 -/

/-- C1: evaluating `CallStatic` with an empty caller-supplied signature shows
that the signature actually handed to `Tools::getStaticMethodInfo` is the
empty string, not the compile-time-derived `"(I)Z"`, so resolution fails even
though the method exists under the derived signature.  This contradicts the
claim that the derived signature is used. -/
theorem c1_callStatic_resolver_receives_empty_signature :
    (CallStatic .rBool "com/example/Foo" "bar" "" [.vI32 5] (.retPrim 1) envC1).resolvedSig = ""
    ∧ getJNISignature .tBool [.tI32] = "(I)Z"
    ∧ (CallStatic .rBool "com/example/Foo" "bar" "" [.vI32 5] (.retPrim 1) envC1).resolvedSig
        ≠ getJNISignature .tBool [.tI32]
    ∧ (CallStatic .rBool "com/example/Foo" "bar" "" [.vI32 5] (.retPrim 1) envC1).result
        = .error ("Could not find the given bar static method in the given com/example/Foo " ++
                  "class using the  signature.") := by
  refine ⟨rfl, rfl, ?_, by rfl⟩
  decide

/-! ### Claim C8 -/

/-- C8: with the process-wide runtime reference unset, `Tools::attachJniEnv`
does not fail — it skips the attach branch and returns the uninitialized local
environment pointer (modelled as `none`, an invalid context).  The failure
branch does fire when the VM is set and the attach call reports an error. -/
theorem c8_null_vm_returns_indeterminate_context :
    Tools.attachJniEnv none = .ok none
    ∧ Tools.attachJniEnv (some ⟨-1, 7⟩)
        = .error "Could not attach the JNI environment to the current thread." := by
  exact ⟨rfl, rfl⟩

/-! ### Claim C10 -/

/-- C10: `JNIObject::CreateGlobal` followed by proxy destruction creates TWO
global references (one directly, one through `makeGlobalRef`, which re-wraps
the already-global handle because the `globalRef` flag is still false) but
releases only ONE (the second; the first is overwritten and leaks).  This
contradicts the claim that exactly one global reference is created and that
destruction releases exactly that one. -/
theorem c10_createGlobal_double_global_ref :
    ((JNIObject.destroy (JNIObject.CreateGlobal 1 envC10).1
        (JNIObject.CreateGlobal 1 envC10).2).globalCreates).length = 2
    ∧ ((JNIObject.destroy (JNIObject.CreateGlobal 1 envC10).1
        (JNIObject.CreateGlobal 1 envC10).2).globalDeletes).length = 1
    ∧ (JNIObject.CreateGlobal 1 envC10).2.globalCreates = [3, 2]
    ∧ (JNIObject.destroy (JNIObject.CreateGlobal 1 envC10).1
        (JNIObject.CreateGlobal 1 envC10).2).globalDeletes = [3] := by
  exact ⟨rfl, rfl, rfl, rfl⟩

/-! ### Environment shape lemmas -/

theorem pending_none_eta (e : Env) (h : e.pending = none) : { e with pending := none } = e := by
  cases e
  simp_all

theorem checkException_snd (e : Env) :
    (Tools.checkException e).2 = { e with pending := none } := rfl

theorem checkException_none (e : Env) (h : e.pending = none) :
    Tools.checkException e = (none, e) := by
  simp [Tools.checkException, h, pending_none_eta e h]

theorem clearException_eq (e : Env) : Tools.clearException e = { e with pending := none } := rfl

/-! ### Claim C3 -/

/-- C3: when `Tools::checkException` detects a pending exception, the raised
native failure carries exactly the message of the pending throwable, the
runtime exception state is already cleared when control leaves the function,
and a subsequent exception check on the resulting state is clean. -/
theorem c3_checkException_clears_and_carries_message (e : Env) (r : Nat) (m : String)
    (hp : e.pending = some r) (hm : e.heap r = some (.jthrow m)) :
    (Tools.checkException e).1 = some m
    ∧ (Tools.checkException e).2.pending = none
    ∧ (Tools.checkException (Tools.checkException e).2).1 = none := by
  refine ⟨?_, ?_, ?_⟩ <;> simp [Tools.checkException, hp, hm]

/-- Witness for C3 at the concrete environment with a pending throwable whose
message is `"boom"`. -/
theorem c3_witness :
    envC3.pending = some 1 ∧ envC3.heap 1 = some (.jthrow "boom")
    ∧ ((Tools.checkException envC3).1 = some "boom"
       ∧ (Tools.checkException envC3).2.pending = none
       ∧ (Tools.checkException (Tools.checkException envC3).2).1 = none) :=
  ⟨rfl, rfl, c3_checkException_clears_and_carries_message envC3 1 "boom" rfl rfl⟩

/-! ### Claim C7 -/

/-- C7: an inbound conversion of the null handle produces the native empty
value — the empty string for `toString`, the empty vector for `toVectorByte`,
`toVectorFloat` and `toVectorString` — instead of failing. -/
theorem c7_null_handle_inbound_defaults (e : Env) (hp : e.pending = none) :
    (Tools.toString e 0).1 = .ok ""
    ∧ (Tools.toVectorByte e 0).1 = .ok []
    ∧ (Tools.toVectorFloat e 0).1 = .ok []
    ∧ (Tools.toVectorString e 0).1 = .ok [] := by
  refine ⟨rfl, rfl, rfl, ?_⟩
  simp [Tools.toVectorString, Tools.checkException, raiseOr, hp]

/-- Witness for C7 at the pristine environment. -/
theorem c7_witness :
    env0.pending = none
    ∧ ((Tools.toString env0 0).1 = .ok ""
       ∧ (Tools.toVectorByte env0 0).1 = .ok []
       ∧ (Tools.toVectorFloat env0 0).1 = .ok []
       ∧ (Tools.toVectorString env0 0).1 = .ok []) :=
  ⟨rfl, c7_null_handle_inbound_defaults env0 rfl⟩

/-! ### Claim C6 -/

theorem Call_resolvedSig (ret : RetType) (inst classId : Nat) (methodName signature : String)
    (args : List CppVal) (outcome : CallOutcome) (e : Env) :
    (Call ret inst classId methodName signature args outcome e).resolvedSig
      = if signature = "" then getJNISignature ret.toNativeType (args.map CppVal.ty)
        else signature := by
  unfold Call
  dsimp only
  split
  · rfl
  · split
    · rfl
    · split <;> rfl

/-- C6: after any `Call`, `Get` or `Set` on a proxy — successful or failed, for
any outcome — the override class-name and member-signature fields are cleared;
the single call itself resolves with the member-signature override when one is
set (and the class-name override selects the `FindClass` branch); and a second
call on the cleared proxy derives a fresh signature and resolves against the
class of the wrapped object. -/
theorem c6_overrides_cleared_scoped (o : JNIObjectModel) (ret ret2 : RetType)
    (methodName methodName2 propertyName : String) (args args2 : List CppVal) (value : CppVal)
    (outcome outcome2 : CallOutcome) (e : Env) :
    ((JNIObject.Call o ret methodName args outcome e).proxy.className = ""
     ∧ (JNIObject.Call o ret methodName args outcome e).proxy.memberSignature = "")
    ∧ ((JNIObject.Get o ret propertyName outcome e).2.className = ""
       ∧ (JNIObject.Get o ret propertyName outcome e).2.memberSignature = "")
    ∧ ((JNIObject.Set o propertyName value e).2.className = ""
       ∧ (JNIObject.Set o propertyName value e).2.memberSignature = "")
    ∧ (JNIObject.Call o ret methodName args outcome e).resolvedSig
        = (if o.memberSignature = ""
           then getJNISignature ret.toNativeType (args.map CppVal.ty)
           else o.memberSignature)
    ∧ (JNIObject.Call o ret methodName args outcome e).classRef
        = (if o.className = "" then (e.getObjectClass o.inst).1
           else (e.findClass o.className).1)
    ∧ (JNIObject.Call (JNIObject.Call o ret methodName args outcome e).proxy ret2 methodName2
         args2 outcome2 (JNIObject.Call o ret methodName args outcome e).env).resolvedSig
        = getJNISignature ret2.toNativeType (args2.map CppVal.ty)
    ∧ (JNIObject.Call (JNIObject.Call o ret methodName args outcome e).proxy ret2 methodName2
         args2 outcome2 (JNIObject.Call o ret methodName args outcome e).env).classRef
        = (Env.getObjectClass (JNIObject.Call o ret methodName args outcome e).env
             (JNIObject.Call o ret methodName args outcome e).proxy.inst).1 := by
  refine ⟨⟨rfl, rfl⟩, ⟨rfl, rfl⟩, ⟨rfl, rfl⟩, ?_, ?_, ?_, ?_⟩
  · exact Call_resolvedSig ret o.inst _ methodName o.memberSignature args outcome _
  · by_cases h : o.className = "" <;> simp [JNIObject.Call, h]
  · show (Call ret2 _ _ methodName2 "" args2 outcome2 _).resolvedSig = _
    rw [Call_resolvedSig]
    rfl
  · rfl

/-! ### Claim C9 -/

/-- C9: in a concrete zero-argument `JNIObject::Call` on a proxy with no
overrides, the class handle obtained by `GetObjectClass` (reference 2) is
created during the call, is not part of the (void) result, and is NEVER
released: the deletion log stays empty and the reference is still a live local
when the call returns.  This contradicts the claim that every local created
during the call is released or becomes part of the result. -/
theorem c9_proxy_call_class_ref_leaks :
    (JNIObject.Call proxyC9 .rVoid "bar" [] (.retPrim 0) envC9).result = .ok .rUnit
    ∧ (JNIObject.Call proxyC9 .rVoid "bar" [] (.retPrim 0) envC9).classRef = 2
    ∧ (JNIObject.Call proxyC9 .rVoid "bar" [] (.retPrim 0) envC9).env.localCreates = [2]
    ∧ (JNIObject.Call proxyC9 .rVoid "bar" [] (.retPrim 0) envC9).env.localDeletes = []
    ∧ 2 ∈ (JNIObject.Call proxyC9 .rVoid "bar" [] (.retPrim 0) envC9).env.locals := by
  refine ⟨rfl, rfl, rfl, rfl, ?_⟩
  decide

/-! ### Component lemmas for the environment primitives -/

@[simp] theorem newLocalRef_fst (e : Env) (v : JValue) : (e.newLocalRef v).1 = e.nextRef := rfl

@[simp] theorem newLocalRef_nextRef (e : Env) (v : JValue) :
    (e.newLocalRef v).2.nextRef = e.nextRef + 1 := rfl

@[simp] theorem newLocalRef_localDeletes (e : Env) (v : JValue) :
    (e.newLocalRef v).2.localDeletes = e.localDeletes := rfl

@[simp] theorem newLocalRef_pending (e : Env) (v : JValue) :
    (e.newLocalRef v).2.pending = e.pending := rfl

theorem newLocalRef_heap (e : Env) (v : JValue) (r : Nat) :
    (e.newLocalRef v).2.heap r = if r = e.nextRef then some v else e.heap r := rfl

@[simp] theorem deleteLocalRef_nextRef (e : Env) (r : Nat) :
    (e.deleteLocalRef r).nextRef = e.nextRef := rfl

@[simp] theorem deleteLocalRef_localDeletes (e : Env) (r : Nat) :
    (e.deleteLocalRef r).localDeletes = r :: e.localDeletes := rfl

@[simp] theorem deleteLocalRef_pending (e : Env) (r : Nat) :
    (e.deleteLocalRef r).pending = e.pending := rfl

@[simp] theorem deleteLocalRef_heap (e : Env) (r : Nat) :
    (e.deleteLocalRef r).heap = e.heap := rfl

@[simp] theorem setRef_nextRef (e : Env) (a : Nat) (v : JValue) :
    (e.setRef a v).nextRef = e.nextRef := rfl

@[simp] theorem setRef_localDeletes (e : Env) (a : Nat) (v : JValue) :
    (e.setRef a v).localDeletes = e.localDeletes := rfl

@[simp] theorem setRef_pending (e : Env) (a : Nat) (v : JValue) :
    (e.setRef a v).pending = e.pending := rfl

theorem setRef_heap (e : Env) (a : Nat) (v : JValue) (r : Nat) :
    (e.setRef a v).heap r = if r = a then some v else e.heap r := rfl

@[simp] theorem setObjectArrayElement_nextRef (e : Env) (a i r : Nat) :
    (e.setObjectArrayElement a i r).nextRef = e.nextRef := by
  unfold Env.setObjectArrayElement
  split <;> rfl

@[simp] theorem setObjectArrayElement_localDeletes (e : Env) (a i r : Nat) :
    (e.setObjectArrayElement a i r).localDeletes = e.localDeletes := by
  unfold Env.setObjectArrayElement
  split <;> rfl

@[simp] theorem setObjectArrayElement_pending (e : Env) (a i r : Nat) :
    (e.setObjectArrayElement a i r).pending = e.pending := by
  unfold Env.setObjectArrayElement
  split <;> rfl

@[simp] theorem setByteArrayRegion_nextRef (e : Env) (a : Nat) (data : List Nat) :
    (e.setByteArrayRegion a data).nextRef = e.nextRef := by
  unfold Env.setByteArrayRegion
  split <;> rfl

@[simp] theorem setByteArrayRegion_localDeletes (e : Env) (a : Nat) (data : List Nat) :
    (e.setByteArrayRegion a data).localDeletes = e.localDeletes := by
  unfold Env.setByteArrayRegion
  split <;> rfl

@[simp] theorem setByteArrayRegion_pending (e : Env) (a : Nat) (data : List Nat) :
    (e.setByteArrayRegion a data).pending = e.pending := by
  unfold Env.setByteArrayRegion
  split <;> rfl

@[simp] theorem hashMapPut_nextRef (e : Env) (hm : Nat) (k v : String) :
    (e.hashMapPut hm k v).nextRef = e.nextRef := by
  unfold Env.hashMapPut
  split <;> rfl

@[simp] theorem hashMapPut_localDeletes (e : Env) (hm : Nat) (k v : String) :
    (e.hashMapPut hm k v).localDeletes = e.localDeletes := by
  unfold Env.hashMapPut
  split <;> rfl

@[simp] theorem hashMapPut_pending (e : Env) (hm : Nat) (k v : String) :
    (e.hashMapPut hm k v).pending = e.pending := by
  unfold Env.hashMapPut
  split <;> rfl

@[simp] theorem checkException_snd_nextRef (e : Env) :
    (Tools.checkException e).2.nextRef = e.nextRef := rfl

@[simp] theorem checkException_snd_localDeletes (e : Env) :
    (Tools.checkException e).2.localDeletes = e.localDeletes := rfl

@[simp] theorem checkException_snd_heap (e : Env) :
    (Tools.checkException e).2.heap = e.heap := rfl

@[simp] theorem checkException_snd_pending (e : Env) :
    (Tools.checkException e).2.pending = none := rfl

@[simp] theorem clearException_nextRef (e : Env) :
    (Tools.clearException e).nextRef = e.nextRef := rfl

@[simp] theorem clearException_localDeletes (e : Env) :
    (Tools.clearException e).localDeletes = e.localDeletes := rfl

@[simp] theorem raiseOr_snd {α : Type} (p : Option String × Env) (v : α) :
    (raiseOr p v).2 = p.2 := rfl

theorem raiseOr_fst_ok {α : Type} (p : Option String × Env) (v r : α) :
    (raiseOr p v).1 = .ok r ↔ p.1 = none ∧ v = r := by
  rcases p with ⟨o, e⟩
  cases o <;> simp [raiseOr]

theorem checkException_fst_none (e : Env) (h : e.pending = none) :
    (Tools.checkException e).1 = none := by
  simp [Tools.checkException, h]

/-! ### DeletesFresh machinery -/

theorem DeletesFresh.of_eq {e e2 : Env} (h1 : e2.localDeletes = e.localDeletes)
    (h2 : e.nextRef ≤ e2.nextRef) : DeletesFresh e e2 :=
  ⟨h2, [], by simp [h1], by simp⟩

theorem DeletesFresh.refl (e : Env) : DeletesFresh e e :=
  DeletesFresh.of_eq rfl (le_refl _)

theorem DeletesFresh.trans {e1 e2 e3 : Env} (a : DeletesFresh e1 e2) (b : DeletesFresh e2 e3) :
    DeletesFresh e1 e3 := by
  obtain ⟨m1, ds1, hd1, hb1⟩ := a
  obtain ⟨m2, ds2, hd2, hb2⟩ := b
  refine ⟨le_trans m1 m2, ds2 ++ ds1, by simp [hd2, hd1], ?_⟩
  intro d hd
  rcases List.mem_append.1 hd with h | h
  · rcases hb2 d h with h0 | ⟨hl, hr⟩
    · exact Or.inl h0
    · exact Or.inr ⟨le_trans m1 hl, hr⟩
  · rcases hb1 d h with h0 | ⟨hl, hr⟩
    · exact Or.inl h0
    · exact Or.inr ⟨hl, lt_of_lt_of_le hr m2⟩

theorem DeletesFresh.push {e e2 : Env} (h : DeletesFresh e e2) (d : Nat)
    (hd : d = 0 ∨ (e.nextRef ≤ d ∧ d < e2.nextRef)) :
    DeletesFresh e (e2.deleteLocalRef d) := by
  obtain ⟨m, ds, hds, hb⟩ := h
  refine ⟨m, d :: ds, by simp [hds], ?_⟩
  intro x hx
  rcases List.mem_cons.1 hx with h | h
  · subst h
    simpa using hd
  · simpa using hb x h

theorem DeletesFresh.count_lt {e e2 : Env} (h : DeletesFresh e e2) {r : Nat} (h0 : r ≠ 0)
    (hr : r < e.nextRef) : e2.localDeletes.count r = e.localDeletes.count r := by
  obtain ⟨m, ds, hds, hb⟩ := h
  rw [hds, List.count_append]
  have hz : ds.count r = 0 := by
    rw [List.count_eq_zero]
    intro hmem
    rcases hb r hmem with h0' | ⟨hl, _⟩
    · exact h0 h0'
    · exact absurd hr (not_lt.2 hl)
  omega

theorem DeletesFresh.count_ge {e e2 : Env} (h : DeletesFresh e e2) {r : Nat} (h0 : r ≠ 0)
    (hr : e2.nextRef ≤ r) : e2.localDeletes.count r = e.localDeletes.count r := by
  obtain ⟨m, ds, hds, hb⟩ := h
  rw [hds, List.count_append]
  have hz : ds.count r = 0 := by
    rw [List.count_eq_zero]
    intro hmem
    rcases hb r hmem with h0' | ⟨_, hl⟩
    · exact h0 h0'
    · exact absurd hr (not_le.2 hl)
  omega

/-! ### Facts about the outbound conversions -/

theorem toJObjectArrayLoop_shape (data : List String) (a i : Nat) (e : Env) :
    (Tools.toJObjectArrayLoop a i data e).localDeletes = e.localDeletes
    ∧ (Tools.toJObjectArrayLoop a i data e).pending = e.pending
    ∧ e.nextRef ≤ (Tools.toJObjectArrayLoop a i data e).nextRef := by
  induction data generalizing i e with
  | nil => exact ⟨rfl, rfl, le_refl _⟩
  | cons s rest ih =>
    simp only [Tools.toJObjectArrayLoop]
    obtain ⟨h1, h2, h3⟩ :=
      ih (i + 1) ((Tools.toJString e s).2.setObjectArrayElement a i (Tools.toJString e s).1)
    refine ⟨?_, ?_, ?_⟩
    · rw [h1]; simp [Tools.toJString]
    · rw [h2]; simp [Tools.toJString]
    · refine le_trans ?_ h3
      simp [Tools.toJString]

theorem toJObjectArray_spec2 (e : Env) (data : List String) :
    DeletesFresh e (Tools.toJObjectArray e data).2
    ∧ e.nextRef + 2 ≤ (Tools.toJObjectArray e data).2.nextRef
    ∧ ∀ r, (Tools.toJObjectArray e data).1 = .ok r →
        r = e.nextRef + 1
        ∧ (Tools.toJObjectArray e data).2.localDeletes.count r = e.localDeletes.count r := by
  obtain ⟨h1, h2, h3⟩ :=
    toJObjectArrayLoop_shape data (e.nextRef + 1) 0
      ((e.newLocalRef (.jcls "java/lang/String")).2.newLocalRef
        (.jobjArr (List.replicate data.length 0))).2
  have hld : (Tools.toJObjectArray e data).2.localDeletes = e.nextRef :: e.localDeletes := by
    simp only [Tools.toJObjectArray, Env.findClass, newLocalRef_fst, newLocalRef_nextRef,
      raiseOr_snd, checkException_snd_localDeletes, deleteLocalRef_localDeletes]
    rw [h1]
    simp
  have hnn : e.nextRef + 2 ≤ (Tools.toJObjectArray e data).2.nextRef := by
    simp only [Tools.toJObjectArray, Env.findClass, newLocalRef_fst, newLocalRef_nextRef,
      raiseOr_snd, checkException_snd_nextRef, deleteLocalRef_nextRef]
    refine le_trans ?_ h3
    simp
  refine ⟨⟨by omega, [e.nextRef], by simpa using hld, ?_⟩, hnn, ?_⟩
  · intro d hd
    rcases List.mem_cons.1 hd with hd | hd
    · subst hd
      exact Or.inr ⟨le_refl _, by omega⟩
    · simp at hd
  · intro r hr
    simp only [Tools.toJObjectArray, Env.findClass, newLocalRef_fst, newLocalRef_nextRef] at hr
    rw [raiseOr_fst_ok] at hr
    obtain ⟨-, h⟩ := hr
    subst h
    refine ⟨rfl, ?_⟩
    rw [hld, List.count_cons]
    simp

theorem toJByteArray_spec2 (e : Env) (data : List Nat) :
    DeletesFresh e (Tools.toJByteArray e data).2
    ∧ e.nextRef + 1 ≤ (Tools.toJByteArray e data).2.nextRef
    ∧ ∀ r, (Tools.toJByteArray e data).1 = .ok r →
        r = e.nextRef
        ∧ (Tools.toJByteArray e data).2.localDeletes.count r = e.localDeletes.count r := by
  have hld : (Tools.toJByteArray e data).2.localDeletes = e.localDeletes := by
    simp [Tools.toJByteArray]
  have hnn : (Tools.toJByteArray e data).2.nextRef = e.nextRef + 1 := by
    simp [Tools.toJByteArray]
  refine ⟨DeletesFresh.of_eq hld (by omega), by omega, ?_⟩
  intro r hr
  simp only [Tools.toJByteArray, newLocalRef_fst] at hr
  rw [raiseOr_fst_ok] at hr
  obtain ⟨-, h⟩ := hr
  subst h
  exact ⟨rfl, by rw [hld]⟩

theorem toHashMapLoop_spec (entries : List (String × String)) (hm : Nat) (e : Env) :
    DeletesFresh e (Tools.toHashMapLoop hm entries e)
    ∧ (Tools.toHashMapLoop hm entries e).pending = e.pending := by
  induction entries generalizing e with
  | nil => exact ⟨DeletesFresh.refl e, rfl⟩
  | cons kv rest ih =>
    obtain ⟨k, v⟩ := kv
    simp only [Tools.toHashMapLoop, newLocalRef_fst, newLocalRef_nextRef]
    have base : DeletesFresh e
        (((e.newLocalRef (.jstr k)).2.newLocalRef (.jstr v)).2.hashMapPut hm k v) :=
      DeletesFresh.of_eq (by simp)
        (by simp only [hashMapPut_nextRef, newLocalRef_nextRef]; omega)
    have p1 := base.push e.nextRef
      (Or.inr ⟨le_refl _, by simp only [hashMapPut_nextRef, newLocalRef_nextRef]; omega⟩)
    have p2 := p1.push (e.nextRef + 1)
      (Or.inr ⟨by omega,
        by simp only [deleteLocalRef_nextRef, hashMapPut_nextRef, newLocalRef_nextRef]; omega⟩)
    obtain ⟨ihd, ihp⟩ := ih
        (((((e.newLocalRef (.jstr k)).2.newLocalRef (.jstr v)).2.hashMapPut hm k
          v).deleteLocalRef e.nextRef).deleteLocalRef (e.nextRef + 1))
    refine ⟨p2.trans ihd, ?_⟩
    rw [ihp]
    simp

theorem toHashMap_spec2 (e : Env) (data : List (String × String)) :
    DeletesFresh e (Tools.toHashMap e data).2
    ∧ e.nextRef + 2 ≤ (Tools.toHashMap e data).2.nextRef
    ∧ ∀ r, (Tools.toHashMap e data).1 = .ok r →
        r = e.nextRef + 1
        ∧ (Tools.toHashMap e data).2.localDeletes.count r = e.localDeletes.count r := by
  obtain ⟨hloop, hlp⟩ :=
    toHashMapLoop_spec data (e.nextRef + 1)
      ((e.newLocalRef (.jcls "java/util/HashMap")).2.newLocalRef (.jmapObj [])).2
  obtain ⟨hmono, ds, hds, hb⟩ := hloop
  have hfd : (Tools.toHashMap e data).2.localDeletes = e.nextRef :: ds ++ e.localDeletes := by
    simp only [Tools.toHashMap, Env.findClass, newLocalRef_fst, newLocalRef_nextRef,
      raiseOr_snd, checkException_snd_localDeletes, deleteLocalRef_localDeletes]
    rw [hds]
    simp
  have hfneq : (Tools.toHashMap e data).2.nextRef
      = (Tools.toHashMapLoop (e.nextRef + 1) data
          ((e.newLocalRef (.jcls "java/util/HashMap")).2.newLocalRef (.jmapObj [])).2).nextRef := by
    simp only [Tools.toHashMap, Env.findClass, newLocalRef_fst, newLocalRef_nextRef,
      raiseOr_snd, checkException_snd_nextRef, deleteLocalRef_nextRef]
  have hfn : e.nextRef + 2 ≤ (Tools.toHashMap e data).2.nextRef := by
    rw [hfneq]
    refine le_trans ?_ hmono
    simp
  have hset : ∀ d ∈ e.nextRef :: ds,
      d = 0 ∨ (e.nextRef ≤ d ∧ d < (Tools.toHashMap e data).2.nextRef) := by
    intro d hd
    rcases List.mem_cons.1 hd with hd | hd
    · subst hd
      exact Or.inr ⟨le_refl _, by omega⟩
    · rcases hb d hd with h0 | ⟨hl, hr⟩
      · exact Or.inl h0
      · simp only [newLocalRef_nextRef] at hl
        rw [hfneq]
        exact Or.inr ⟨by omega, hr⟩
  refine ⟨⟨by omega, e.nextRef :: ds, by simpa using hfd, hset⟩, hfn, ?_⟩
  intro r hr
  simp only [Tools.toHashMap, Env.findClass, newLocalRef_fst, newLocalRef_nextRef] at hr
  rw [raiseOr_fst_ok] at hr
  obtain ⟨-, h⟩ := hr
  subst h
  refine ⟨rfl, ?_⟩
  rw [hfd]
  have hz : ds.count (e.nextRef + 1) = 0 := by
    rw [List.count_eq_zero]
    intro hmem
    rcases hb _ hmem with h0 | ⟨hl, _⟩
    · omega
    · simp only [newLocalRef_nextRef] at hl
      omega
  rw [List.cons_append, List.count_cons, List.count_append, hz]
  simp

/-! ### Facts about the inbound conversions and the caller -/

@[simp] theorem toString_snd_localDeletes (e : Env) (r : Nat) :
    (Tools.toString e r).2.localDeletes = e.localDeletes := by
  unfold Tools.toString
  split <;> simp

@[simp] theorem toString_snd_nextRef (e : Env) (r : Nat) :
    (Tools.toString e r).2.nextRef = e.nextRef := by
  unfold Tools.toString
  split <;> simp

@[simp] theorem toVectorByte_snd_localDeletes (e : Env) (a : Nat) :
    (Tools.toVectorByte e a).2.localDeletes = e.localDeletes := by
  unfold Tools.toVectorByte
  split <;> simp

@[simp] theorem toVectorByte_snd_nextRef (e : Env) (a : Nat) :
    (Tools.toVectorByte e a).2.nextRef = e.nextRef := by
  unfold Tools.toVectorByte
  split <;> simp

theorem toVectorStringLoop_deletesFresh (ers : List Nat) (e : Env) :
    DeletesFresh e (Tools.toVectorStringLoop e ers).2 := by
  induction ers generalizing e with
  | nil => exact DeletesFresh.refl e
  | cons er rest ih =>
    simp only [Tools.toVectorStringLoop]
    have hpr : DeletesFresh e (e.getObjectArrayElement er).2 ∧
        ((e.getObjectArrayElement er).1 = 0 ∨
          ((e.getObjectArrayElement er).1 = e.nextRef ∧
           (e.getObjectArrayElement er).2.nextRef = e.nextRef + 1)) := by
      unfold Env.getObjectArrayElement
      split
      · exact ⟨DeletesFresh.refl e, Or.inl rfl⟩
      · split
        · exact ⟨DeletesFresh.of_eq rfl (by simp), Or.inr ⟨rfl, by simp⟩⟩
        · exact ⟨DeletesFresh.refl e, Or.inl rfl⟩
    obtain ⟨hdf1, hfst⟩ := hpr
    have hts : DeletesFresh e
        (Tools.toString (e.getObjectArrayElement er).2 (e.getObjectArrayElement er).1).2 :=
      hdf1.trans (DeletesFresh.of_eq (by simp) (by simp))
    cases hps : (Tools.toString (e.getObjectArrayElement er).2 (e.getObjectArrayElement er).1).1
        with
    | error m =>
      simp only [hps]
      exact hts
    | ok s =>
      simp only [hps]
      have hdel : DeletesFresh e
          ((Tools.toString (e.getObjectArrayElement er).2
            (e.getObjectArrayElement er).1).2.deleteLocalRef (e.getObjectArrayElement er).1) := by
        refine hts.push _ ?_
        rcases hfst with h | ⟨h1, h2⟩
        · exact Or.inl h
        · refine Or.inr ⟨le_of_eq h1.symm, ?_⟩
          rw [h1, toString_snd_nextRef, h2]
          omega
      cases hq : (Tools.toVectorStringLoop
          ((Tools.toString (e.getObjectArrayElement er).2
            (e.getObjectArrayElement er).1).2.deleteLocalRef
            (e.getObjectArrayElement er).1) rest).1 with
      | error m =>
        simp only [hq]
        exact hdel.trans (ih _)
      | ok ss =>
        simp only [hq]
        exact hdel.trans (ih _)

theorem toVectorString_deletesFresh (e : Env) (a : Nat) :
    DeletesFresh e (Tools.toVectorString e a).2 := by
  unfold Tools.toVectorString
  by_cases h : a = 0
  · simp only [h, if_true, reduceIte]
    exact DeletesFresh.of_eq rfl (le_refl _)
  · simp only [if_neg h]
    cases hh : e.heap a with
    | none =>
      simp only [hh]
      exact DeletesFresh.of_eq rfl (le_refl _)
    | some v =>
      rcases v with s | es | bs | fs | cn | tm | mp | co
      · simp only [hh]
        exact DeletesFresh.of_eq rfl (le_refl _)
      · simp only [hh]
        have hl := toVectorStringLoop_deletesFresh es e
        cases hq : (Tools.toVectorStringLoop e es).1 with
        | error m =>
          simp only [hq]
          exact hl
        | ok ss =>
          simp only [hq]
          exact hl.trans (DeletesFresh.of_eq rfl (le_refl _))
      all_goals
        simp only [hh]
        exact DeletesFresh.of_eq rfl (le_refl _)

theorem JNICallerRun_deletesFresh (ret : RetType) (e : Env) (outcome : CallOutcome) :
    DeletesFresh e (JNICallerRun ret e outcome).2 := by
  have hinv : DeletesFresh e (jvmInvoke e outcome).2.2 ∧
      ((jvmInvoke e outcome).1 = 0 ∨
        ((jvmInvoke e outcome).1 = e.nextRef ∧
         (jvmInvoke e outcome).2.2.nextRef = e.nextRef + 1)) := by
    cases outcome with
    | retPrim v => exact ⟨DeletesFresh.refl e, Or.inl rfl⟩
    | retObj v =>
      exact ⟨DeletesFresh.of_eq rfl (by simp [jvmInvoke]), Or.inr ⟨rfl, by simp [jvmInvoke]⟩⟩
    | retNull => exact ⟨DeletesFresh.refl e, Or.inl rfl⟩
    | raises m => exact ⟨DeletesFresh.of_eq rfl (by simp [jvmInvoke]), Or.inl rfl⟩
  obtain ⟨hdf, hfst⟩ := hinv
  cases ret with
  | rVoid => exact hdf
  | rBool => exact hdf
  | rI8 => exact hdf
  | rU8 => exact hdf
  | rI16 => exact hdf
  | rI32 => exact hdf
  | rI64 => exact hdf
  | rF32 => exact hdf
  | rF64 => exact hdf
  | rObjPtr => exact hdf
  | rString =>
    have hts : DeletesFresh e
        (Tools.toString (jvmInvoke e outcome).2.2 (jvmInvoke e outcome).1).2 :=
      hdf.trans (DeletesFresh.of_eq (by simp) (by simp))
    simp only [JNICallerRun]
    cases hps : (Tools.toString (jvmInvoke e outcome).2.2 (jvmInvoke e outcome).1).1 with
    | error m =>
      simp only [hps]
      exact hts
    | ok s =>
      simp only [hps]
      split
      · refine hts.push _ ?_
        rcases hfst with h | ⟨h1, h2⟩
        · exact Or.inl h
        · refine Or.inr ⟨le_of_eq h1.symm, ?_⟩
          rw [h1, toString_snd_nextRef, h2]
          omega
      · exact hts
  | rVecString =>
    have hts : DeletesFresh e
        (Tools.toVectorString (jvmInvoke e outcome).2.2 (jvmInvoke e outcome).1).2 :=
      hdf.trans (toVectorString_deletesFresh _ _)
    have hmono := (toVectorString_deletesFresh (jvmInvoke e outcome).2.2
      (jvmInvoke e outcome).1).1
    simp only [JNICallerRun]
    cases hps : (Tools.toVectorString (jvmInvoke e outcome).2.2 (jvmInvoke e outcome).1).1 with
    | error m =>
      simp only [hps]
      exact hts
    | ok l =>
      simp only [hps]
      split
      · refine hts.push _ ?_
        rcases hfst with h | ⟨h1, h2⟩
        · exact Or.inl h
        · exact Or.inr ⟨le_of_eq h1.symm, by omega⟩
      · exact hts
  | rVecByte =>
    have hts : DeletesFresh e
        (Tools.toVectorByte (jvmInvoke e outcome).2.2 (jvmInvoke e outcome).1).2 :=
      hdf.trans (DeletesFresh.of_eq (by simp) (by simp))
    simp only [JNICallerRun]
    cases hps : (Tools.toVectorByte (jvmInvoke e outcome).2.2 (jvmInvoke e outcome).1).1 with
    | error m =>
      simp only [hps]
      exact hts
    | ok l =>
      simp only [hps]
      split
      · refine hts.push _ ?_
        rcases hfst with h | ⟨h1, h2⟩
        · exact Or.inl h
        · refine Or.inr ⟨le_of_eq h1.symm, ?_⟩
          rw [h1, toVectorByte_snd_nextRef, h2]
          omega
      · exact hts

/-! ### Argument marshalling facts -/

theorem JNIParamConversor_spec (e : Env) (v : CppVal) :
    DeletesFresh e (JNIParamConversor e v).2
    ∧ ∀ j regs, (JNIParamConversor e v).1 = .ok (j, regs) →
        ∀ r ∈ regs,
          (e.nextRef ≤ r ∧ r < (JNIParamConversor e v).2.nextRef)
          ∧ (JNIParamConversor e v).2.localDeletes.count r = e.localDeletes.count r
          ∧ regs.count r = 1 := by
  cases v with
  | vBool b =>
    refine ⟨DeletesFresh.refl e, ?_⟩
    intro j regs h r hr
    simp [JNIParamConversor, CPPToJNIConversorConvert, needDeleteLocal, destructorDecide,
      Except.map] at h
    obtain ⟨-, h2⟩ := h
    subst h2
    cases hr
  | vI8 n =>
    refine ⟨DeletesFresh.refl e, ?_⟩
    intro j regs h r hr
    simp [JNIParamConversor, CPPToJNIConversorConvert, needDeleteLocal, destructorDecide,
      Except.map] at h
    obtain ⟨-, h2⟩ := h
    subst h2
    cases hr
  | vU8 n =>
    refine ⟨DeletesFresh.refl e, ?_⟩
    intro j regs h r hr
    simp [JNIParamConversor, CPPToJNIConversorConvert, needDeleteLocal, destructorDecide,
      Except.map] at h
    obtain ⟨-, h2⟩ := h
    subst h2
    cases hr
  | vI16 n =>
    refine ⟨DeletesFresh.refl e, ?_⟩
    intro j regs h r hr
    simp [JNIParamConversor, CPPToJNIConversorConvert, needDeleteLocal, destructorDecide,
      Except.map] at h
    obtain ⟨-, h2⟩ := h
    subst h2
    cases hr
  | vI32 n =>
    refine ⟨DeletesFresh.refl e, ?_⟩
    intro j regs h r hr
    simp [JNIParamConversor, CPPToJNIConversorConvert, needDeleteLocal, destructorDecide,
      Except.map] at h
    obtain ⟨-, h2⟩ := h
    subst h2
    cases hr
  | vI64 n =>
    refine ⟨DeletesFresh.refl e, ?_⟩
    intro j regs h r hr
    simp [JNIParamConversor, CPPToJNIConversorConvert, needDeleteLocal, destructorDecide,
      Except.map] at h
    obtain ⟨-, h2⟩ := h
    subst h2
    cases hr
  | vObjPtr ro =>
    refine ⟨DeletesFresh.refl e, ?_⟩
    intro j regs h r hr
    simp [JNIParamConversor, CPPToJNIConversorConvert, needDeleteLocal, destructorDecide,
      Except.map] at h
    obtain ⟨-, h2⟩ := h
    subst h2
    cases hr
  | vStr s =>
    refine ⟨DeletesFresh.of_eq rfl (by simp [JNIParamConversor, CPPToJNIConversorConvert,
      Tools.toJString]), ?_⟩
    intro j regs h r hr
    simp [JNIParamConversor, CPPToJNIConversorConvert, needDeleteLocal, destructorDecide,
      Except.map, Tools.toJString] at h
    obtain ⟨-, h2⟩ := h
    subst h2
    rw [List.mem_singleton] at hr
    subst hr
    refine ⟨⟨le_refl _, by simp [JNIParamConversor, CPPToJNIConversorConvert,
      Tools.toJString]⟩, rfl, by simp⟩
  | vVecStr l =>
    obtain ⟨hdf, hmono, hok⟩ := toJObjectArray_spec2 e l
    refine ⟨hdf, ?_⟩
    intro j regs h r hr
    cases ha : (Tools.toJObjectArray e l).1 with
    | error m =>
      simp [JNIParamConversor, CPPToJNIConversorConvert, ha, Except.map] at h
    | ok a =>
      obtain ⟨ha1, ha2⟩ := hok a ha
      simp [JNIParamConversor, CPPToJNIConversorConvert, ha, Except.map, needDeleteLocal,
        destructorDecide] at h
      obtain ⟨-, h2⟩ := h
      subst h2
      rw [List.mem_singleton] at hr
      refine ⟨⟨by omega, ?_⟩, ?_, by rw [hr]; simp⟩
      · show r < (Tools.toJObjectArray e l).2.nextRef
        omega
      · show (Tools.toJObjectArray e l).2.localDeletes.count r = e.localDeletes.count r
        rw [hr]
        exact ha2
  | vVecByte l =>
    obtain ⟨hdf, hmono, hok⟩ := toJByteArray_spec2 e l
    refine ⟨hdf, ?_⟩
    intro j regs h r hr
    cases ha : (Tools.toJByteArray e l).1 with
    | error m =>
      simp [JNIParamConversor, CPPToJNIConversorConvert, ha, Except.map] at h
    | ok a =>
      obtain ⟨ha1, ha2⟩ := hok a ha
      simp [JNIParamConversor, CPPToJNIConversorConvert, ha, Except.map, needDeleteLocal,
        destructorDecide] at h
      obtain ⟨-, h2⟩ := h
      subst h2
      rw [List.mem_singleton] at hr
      refine ⟨⟨by omega, ?_⟩, ?_, by rw [hr]; simp⟩
      · show r < (Tools.toJByteArray e l).2.nextRef
        omega
      · show (Tools.toJByteArray e l).2.localDeletes.count r = e.localDeletes.count r
        rw [hr]
        exact ha2
  | vMap mp =>
    obtain ⟨hdf, hmono, hok⟩ := toHashMap_spec2 e mp
    refine ⟨hdf, ?_⟩
    intro j regs h r hr
    cases ha : (Tools.toHashMap e mp).1 with
    | error m =>
      simp [JNIParamConversor, CPPToJNIConversorConvert, ha, Except.map] at h
    | ok a =>
      obtain ⟨ha1, ha2⟩ := hok a ha
      simp [JNIParamConversor, CPPToJNIConversorConvert, ha, Except.map, needDeleteLocal,
        destructorDecide] at h
      obtain ⟨-, h2⟩ := h
      subst h2
      rw [List.mem_singleton] at hr
      refine ⟨⟨by omega, ?_⟩, ?_, by rw [hr]; simp⟩
      · show r < (Tools.toHashMap e mp).2.nextRef
        omega
      · show (Tools.toHashMap e mp).2.localDeletes.count r = e.localDeletes.count r
        rw [hr]
        exact ha2

theorem marshal_spec (args : List CppVal) (e : Env) (h0 : 0 < e.nextRef) :
    DeletesFresh e (marshal e args).2.2
    ∧ ∀ r ∈ (marshal e args).2.1,
        (e.nextRef ≤ r ∧ r < (marshal e args).2.2.nextRef)
        ∧ (marshal e args).2.2.localDeletes.count r = e.localDeletes.count r
        ∧ (marshal e args).2.1.count r = 1 := by
  induction args generalizing e with
  | nil =>
    refine ⟨DeletesFresh.refl e, ?_⟩
    intro r hr
    simp [marshal] at hr
  | cons a rest ih =>
    obtain ⟨cdf, cspec⟩ := JNIParamConversor_spec e a
    have h0c : 0 < (JNIParamConversor e a).2.nextRef := lt_of_lt_of_le h0 cdf.1
    obtain ⟨idf, ispec⟩ := ih (JNIParamConversor e a).2 h0c
    cases hc : (JNIParamConversor e a).1 with
    | error m =>
      constructor
      · show DeletesFresh e (marshal e (a :: rest)).2.2
        simp only [marshal, hc]
        exact cdf
      · intro r hr
        simp only [marshal, hc] at hr
        cases hr
    | ok jr =>
      obtain ⟨j, regs⟩ := jr
      have h2eq : (marshal e (a :: rest)).2
          = (regs ++ (marshal (JNIParamConversor e a).2 rest).2.1,
             (marshal (JNIParamConversor e a).2 rest).2.2) := by
        simp only [marshal, hc]
        split <;> rfl
      have hregs := cspec j regs hc
      have h2env : (marshal e (a :: rest)).2.2
          = (marshal (JNIParamConversor e a).2 rest).2.2 := by rw [h2eq]
      have h2regs : (marshal e (a :: rest)).2.1
          = regs ++ (marshal (JNIParamConversor e a).2 rest).2.1 := by rw [h2eq]
      constructor
      · rw [h2env]
        exact cdf.trans idf
      · intro r hr
        rw [h2regs] at hr
        rw [h2env, h2regs]
        rcases List.mem_append.1 hr with hmem | hmem
        · obtain ⟨⟨hge, hlt⟩, hcount, honce⟩ := hregs r hmem
          have hr0 : r ≠ 0 := by omega
          have hnotrest : r ∉ (marshal (JNIParamConversor e a).2 rest).2.1 := by
            intro hmem2
            obtain ⟨⟨hge2, _⟩, _, _⟩ := ispec r hmem2
            omega
          refine ⟨⟨hge, lt_of_lt_of_le hlt idf.1⟩, ?_, ?_⟩
          · rw [idf.count_lt hr0 hlt, hcount]
          · rw [List.count_append, honce, List.count_eq_zero.2 hnotrest]
        · obtain ⟨⟨hge2, hlt2⟩, hcount2, honce2⟩ := ispec r hmem
          have hge : e.nextRef ≤ r := le_trans cdf.1 hge2
          have hr0 : r ≠ 0 := by omega
          have hnotregs : r ∉ regs := by
            intro hmem2
            obtain ⟨⟨_, hlt'⟩, _, _⟩ := hregs r hmem2
            omega
          refine ⟨⟨hge, hlt2⟩, ?_, ?_⟩
          · rw [hcount2, cdf.count_ge hr0 hge2]
          · rw [List.count_append, honce2, List.count_eq_zero.2 hnotregs]

theorem destructorRun_count (regs : List Nat) (e : Env) (r : Nat) (h0 : r ≠ 0) :
    (JNIParamDestructorRun regs e).localDeletes.count r
      = e.localDeletes.count r + regs.count r := by
  unfold JNIParamDestructorRun
  rw [clearException_localDeletes]
  induction regs generalizing e with
  | nil => simp
  | cons x xs ihx =>
    simp only [List.foldl_cons]
    rw [ihx]
    by_cases hx : x = 0
    · subst hx
      simp only [ne_eq, not_true_eq_false, if_neg, ite_false, reduceIte]
      rw [List.count_cons]
      simp [Ne.symm h0]
    · simp only [ne_eq, hx, not_false_eq_true, if_pos, ite_true, reduceIte]
      rw [deleteLocalRef_localDeletes, List.count_cons, List.count_cons]
      omega

theorem destroy_count (mi : JNIMethodInfo) (e : Env) (r : Nat)
    (h : mi.weak_ = true ∨ r ≠ mi.classId) :
    (mi.destroy e).localDeletes.count r = e.localDeletes.count r := by
  unfold JNIMethodInfo.destroy
  rcases h with h | h
  · simp [h]
  · split
    · rfl
    · split
      · rw [deleteLocalRef_localDeletes, List.count_cons]
        have hne : mi.classId ≠ r := Ne.symm h
        simp [hne]
      · rfl

theorem getStaticMethodInfo_facts (e : Env) (cn mn sig : String) :
    (Tools.getStaticMethodInfo e cn mn sig).2.localDeletes = e.localDeletes
    ∧ (Tools.getStaticMethodInfo e cn mn sig).2.nextRef = e.nextRef + 1
    ∧ ∀ mi, (Tools.getStaticMethodInfo e cn mn sig).1 = .ok mi →
        mi.classId = e.nextRef ∧ mi.weak_ = false := by
  cases hp : e.pending with
  | some pr =>
    simp [Tools.getStaticMethodInfo, Tools.checkException, Env.findClass, hp]
  | none =>
    simp only [Tools.getStaticMethodInfo, Tools.checkException, Env.findClass,
      newLocalRef_pending, hp, Option.map_none', newLocalRef_fst]
    split
    · simp
    · split
      · simp
      · simp

theorem getMethodInfoCls_facts (e : Env) (classId : Nat) (mn sig : String) :
    (Tools.getMethodInfoCls e classId mn sig).2.localDeletes = e.localDeletes
    ∧ (Tools.getMethodInfoCls e classId mn sig).2.nextRef = e.nextRef
    ∧ ∀ mi, (Tools.getMethodInfoCls e classId mn sig).1 = .ok mi → mi.weak_ = true := by
  cases hp : e.pending with
  | some pr =>
    simp [Tools.getMethodInfoCls, Tools.checkException, hp]
  | none =>
    simp only [Tools.getMethodInfoCls, Tools.checkException, hp, Option.map_none']
    split
    · simp
    · simp

/-! ### Claim C2 -/

/-- C2: for every static or instance call — any return category, any argument
list (including the empty one), any outcome of the dispatched call including a
raising one, and any exit path (resolution failure, conversion failure, call
failure, success) — every transient local reference registered with the
`JNIParamDestructor` during argument conversion has been deleted exactly once
more when the call returns than before it (no leak, no double release). -/
theorem c2_registered_transients_released_once (ret : RetType)
    (className methodName signature : String) (inst classId : Nat)
    (args : List CppVal) (outcome : CallOutcome) (e : Env) (h0 : 0 < e.nextRef) :
    (∀ r ∈ (CallStatic ret className methodName signature args outcome e).registered,
       (CallStatic ret className methodName signature args outcome e).env.localDeletes.count r
         = e.localDeletes.count r + 1)
    ∧ (∀ r ∈ (Call ret inst classId methodName signature args outcome e).registered,
       (Call ret inst classId methodName signature args outcome e).env.localDeletes.count r
         = e.localDeletes.count r + 1) := by
  constructor
  · obtain ⟨hgd, hgn, hgok⟩ := getStaticMethodInfo_facts e className methodName signature
    cases hres : (Tools.getStaticMethodInfo e className methodName signature).1 with
    | error m =>
      intro r hr
      simp only [CallStatic, hres] at hr
      cases hr
    | ok mi =>
      obtain ⟨hcls, hweak⟩ := hgok mi hres
      have h01 : 0 < (Tools.getStaticMethodInfo e className methodName signature).2.nextRef := by
        omega
      obtain ⟨mdf, mspec⟩ :=
        marshal_spec args (Tools.getStaticMethodInfo e className methodName signature).2 h01
      cases hm : (marshal (Tools.getStaticMethodInfo e className methodName signature).2 args).1
          with
      | error m2 =>
        intro r hr
        simp only [CallStatic, hres, hm] at hr ⊢
        obtain ⟨⟨hge, hlt⟩, hcount, honce⟩ := mspec r hr
        have hr0 : r ≠ 0 := by omega
        rw [destroy_count mi _ r (Or.inr (by omega)), destructorRun_count _ _ r hr0,
          hcount, honce, hgd]
      | ok js =>
        intro r hr
        simp only [CallStatic, hres, hm] at hr ⊢
        obtain ⟨⟨hge, hlt⟩, hcount, honce⟩ := mspec r hr
        have hr0 : r ≠ 0 := by omega
        have hcall := JNICallerRun_deletesFresh ret
          (marshal (Tools.getStaticMethodInfo e className methodName signature).2 args).2.2
          outcome
        rw [destroy_count mi _ r (Or.inr (by omega)), destructorRun_count _ _ r hr0,
          hcall.count_lt hr0 hlt, hcount, honce, hgd]
  · obtain ⟨hgd, hgn, hgok⟩ := getMethodInfoCls_facts e classId methodName
      (if signature = "" then getJNISignature ret.toNativeType (args.map CppVal.ty)
       else signature)
    cases hres : (Tools.getMethodInfoCls e classId methodName
        (if signature = "" then getJNISignature ret.toNativeType (args.map CppVal.ty)
         else signature)).1 with
    | error m =>
      intro r hr
      simp only [Call, hres] at hr
      cases hr
    | ok mi =>
      have hweak := hgok mi hres
      have h01 : 0 < (Tools.getMethodInfoCls e classId methodName
          (if signature = "" then getJNISignature ret.toNativeType (args.map CppVal.ty)
           else signature)).2.nextRef := by
        omega
      obtain ⟨mdf, mspec⟩ :=
        marshal_spec args (Tools.getMethodInfoCls e classId methodName
          (if signature = "" then getJNISignature ret.toNativeType (args.map CppVal.ty)
           else signature)).2 h01
      cases hm : (marshal (Tools.getMethodInfoCls e classId methodName
          (if signature = "" then getJNISignature ret.toNativeType (args.map CppVal.ty)
           else signature)).2 args).1 with
      | error m2 =>
        intro r hr
        simp only [Call, hres, hm] at hr ⊢
        obtain ⟨⟨hge, hlt⟩, hcount, honce⟩ := mspec r hr
        have hr0 : r ≠ 0 := by omega
        rw [destroy_count mi _ r (Or.inl hweak), destructorRun_count _ _ r hr0,
          hcount, honce, hgd]
      | ok js =>
        intro r hr
        simp only [Call, hres, hm] at hr ⊢
        obtain ⟨⟨hge, hlt⟩, hcount, honce⟩ := mspec r hr
        have hr0 : r ≠ 0 := by omega
        have hcall := JNICallerRun_deletesFresh ret
          (marshal (Tools.getMethodInfoCls e classId methodName
            (if signature = "" then getJNISignature ret.toNativeType (args.map CppVal.ty)
             else signature)).2 args).2.2 outcome
        rw [destroy_count mi _ r (Or.inl hweak), destructorRun_count _ _ r hr0,
          hcall.count_lt hr0 hlt, hcount, honce, hgd]

/-- Witness for C2: a concrete static call with one string argument; the
converted string (reference 2) is registered and is deleted exactly once by
call end. -/
theorem c2_witness :
    (0 < envC2.nextRef)
    ∧ 2 ∈ (CallStatic .rVoid "C" "m" "(Ljava/lang/String;)V" [.vStr "x"]
        (.retPrim 0) envC2).registered
    ∧ (CallStatic .rVoid "C" "m" "(Ljava/lang/String;)V" [.vStr "x"]
        (.retPrim 0) envC2).env.localDeletes.count 2
      = envC2.localDeletes.count 2 + 1 :=
  ⟨by decide, by decide,
   (c2_registered_transients_released_once .rVoid "C" "m" "(Ljava/lang/String;)V" 0 0
     [.vStr "x"] (.retPrim 0) envC2 (by decide)).1 2 (by decide)⟩

/-! ### Well-formedness and heap preservation lemmas -/

theorem heap_lt_of_some {e : Env} (hwf : e.WF) {r : Nat} {v : JValue}
    (h : e.heap r = some v) : r < e.nextRef := by
  by_contra hge
  rw [hwf.heapFresh r (le_of_not_lt hge)] at h
  cases h

theorem WF_newLocalRef {e : Env} (hwf : e.WF) (v : JValue) : (e.newLocalRef v).2.WF := by
  refine ⟨by simp, ?_⟩
  intro r hr
  rw [newLocalRef_heap]
  simp only [newLocalRef_nextRef] at hr
  rw [if_neg (by omega)]
  exact hwf.heapFresh r (by omega)

theorem newLocalRef_heap_preserve {e : Env} (hwf : e.WF) (v : JValue) {r : Nat} {x : JValue}
    (hx : e.heap r = some x) : (e.newLocalRef v).2.heap r = some x := by
  rw [newLocalRef_heap, if_neg (by have := heap_lt_of_some hwf hx; omega)]
  exact hx

theorem WF_setRef {e : Env} (hwf : e.WF) {a : Nat} (ha : a < e.nextRef) (v : JValue) :
    (e.setRef a v).WF := by
  refine ⟨hwf.pos, ?_⟩
  intro r hr
  rw [setRef_heap, if_neg (by simp only [setRef_nextRef] at hr; omega)]
  exact hwf.heapFresh r hr

theorem WF_deleteLocalRef {e : Env} (hwf : e.WF) (r : Nat) : (e.deleteLocalRef r).WF :=
  ⟨hwf.pos, hwf.heapFresh⟩

theorem WF_pending_none {e : Env} (hwf : e.WF) : Env.WF { e with pending := none } :=
  ⟨hwf.pos, hwf.heapFresh⟩

theorem WF_setObjectArrayElement {e : Env} (hwf : e.WF) (a i r : Nat) :
    (e.setObjectArrayElement a i r).WF := by
  unfold Env.setObjectArrayElement
  split
  · rename_i es ha
    exact WF_setRef hwf (heap_lt_of_some hwf ha) _
  · exact hwf

theorem setObjectArrayElement_heap_ne (e : Env) (a i r : Nat) {x : Nat} (hx : x ≠ a) :
    (e.setObjectArrayElement a i r).heap x = e.heap x := by
  unfold Env.setObjectArrayElement
  split
  · rw [setRef_heap, if_neg hx]
  · rfl

theorem setObjectArrayElement_heap_arr {e : Env} {a : Nat} {es : List Nat}
    (ha : e.heap a = some (.jobjArr es)) (i r : Nat) :
    (e.setObjectArrayElement a i r).heap a = some (.jobjArr (es.set i r)) := by
  unfold Env.setObjectArrayElement
  rw [ha]
  rw [setRef_heap, if_pos rfl]

theorem list_set_append {α : Type} (pre : List α) (x v : α) (rest : List α) :
    (pre ++ x :: rest).set pre.length v = pre ++ v :: rest := by
  induction pre with
  | nil => rfl
  | cons a l ih => simp [List.set, ih]

theorem forall2_append {α β : Type} {R : α → β → Prop} {a c : List α} {b d : List β}
    (h1 : List.Forall₂ R a b) (h2 : List.Forall₂ R c d) :
    List.Forall₂ R (a ++ c) (b ++ d) := by
  induction h1 with
  | nil => simpa using h2
  | cons hr ht ih => exact List.Forall₂.cons hr ih

theorem toJObjectArrayLoop_points (data : List String) (a : Nat) (pre : List Nat)
    (ss : List String) (e : Env) (hwf : e.WF) (hp : e.pending = none) (ha : a < e.nextRef)
    (harr : e.heap a = some (.jobjArr (pre ++ List.replicate data.length 0)))
    (hpre : List.Forall₂ (fun r s => r ≠ 0 ∧ r ≠ a ∧ e.heap r = some (.jstr s)) pre ss) :
    ∃ rs,
      (Tools.toJObjectArrayLoop a pre.length data e).heap a = some (.jobjArr (pre ++ rs))
      ∧ List.Forall₂
          (fun r s => r ≠ 0 ∧ r ≠ a
            ∧ (Tools.toJObjectArrayLoop a pre.length data e).heap r = some (.jstr s))
          (pre ++ rs) (ss ++ data)
      ∧ (Tools.toJObjectArrayLoop a pre.length data e).WF
      ∧ (Tools.toJObjectArrayLoop a pre.length data e).pending = none
      ∧ a < (Tools.toJObjectArrayLoop a pre.length data e).nextRef := by
  induction data generalizing pre ss e with
  | nil =>
    exact ⟨[], by simpa using harr, by simpa using hpre, hwf, hp, ha⟩
  | cons s rest ih =>
    simp only [Tools.toJObjectArrayLoop, Tools.toJString, newLocalRef_fst]
    have hwf1 := WF_newLocalRef hwf (.jstr s)
    have hwf2 := WF_setObjectArrayElement hwf1 a pre.length e.nextRef
    have hp2 : ((e.newLocalRef (.jstr s)).2.setObjectArrayElement a pre.length
        e.nextRef).pending = none := by
      simp [hp]
    have ha2 : a < ((e.newLocalRef (.jstr s)).2.setObjectArrayElement a pre.length
        e.nextRef).nextRef := by
      simp
      omega
    have harr2 : ((e.newLocalRef (.jstr s)).2.setObjectArrayElement a pre.length
        e.nextRef).heap a
        = some (.jobjArr ((pre ++ [e.nextRef]) ++ List.replicate rest.length 0)) := by
      rw [setObjectArrayElement_heap_arr (newLocalRef_heap_preserve hwf _ harr) pre.length
        e.nextRef]
      have hrep : List.replicate (s :: rest).length (0 : Nat)
          = 0 :: List.replicate rest.length 0 := by
        simp [List.replicate_succ]
      rw [hrep, list_set_append]
      simp
    have hpre2 : List.Forall₂
        (fun r t => r ≠ 0 ∧ r ≠ a
          ∧ ((e.newLocalRef (.jstr s)).2.setObjectArrayElement a pre.length
              e.nextRef).heap r = some (.jstr t))
        (pre ++ [e.nextRef]) (ss ++ [s]) := by
      refine forall2_append (hpre.imp ?_) ?_
      · rintro r t ⟨h1, h2, h3⟩
        refine ⟨h1, h2, ?_⟩
        rw [setObjectArrayElement_heap_ne _ _ _ _ h2]
        exact newLocalRef_heap_preserve hwf _ h3
      · refine List.Forall₂.cons ⟨by omega, by omega, ?_⟩ List.Forall₂.nil
        rw [setObjectArrayElement_heap_ne _ _ _ _ (by omega), newLocalRef_heap, if_pos rfl]
    have ihh := ih (pre ++ [e.nextRef]) (ss ++ [s])
      ((e.newLocalRef (.jstr s)).2.setObjectArrayElement a pre.length e.nextRef)
      hwf2 hp2 ha2 harr2 hpre2
    have hlen : (pre ++ [e.nextRef]).length = pre.length + 1 := by simp
    rw [hlen] at ihh
    obtain ⟨rs', k1, k2, k3, k4, k5⟩ := ihh
    refine ⟨e.nextRef :: rs', ?_, ?_, k3, k4, k5⟩
    · rw [k1]
      simp
    · simpa using k2

theorem toString_snd_eq (e : Env) (r : Nat) :
    (Tools.toString e r).2 = if r = 0 then e else { e with pending := none } := by
  by_cases h : r = 0 <;> simp [Tools.toString, h, raiseOr, Tools.checkException]

theorem toVectorStringLoop_pending (ers : List Nat) (e : Env) (hp : e.pending = none) :
    (Tools.toVectorStringLoop e ers).2.pending = none := by
  induction ers generalizing e with
  | nil => exact hp
  | cons er rest ih =>
    simp only [Tools.toVectorStringLoop]
    have hp1 : (e.getObjectArrayElement er).2.pending = none := by
      unfold Env.getObjectArrayElement
      split
      · exact hp
      · split
        · simpa using hp
        · exact hp
    have hp2 : (Tools.toString (e.getObjectArrayElement er).2
        (e.getObjectArrayElement er).1).2.pending = none := by
      rw [toString_snd_eq]
      split
      · exact hp1
      · rfl
    cases hps : (Tools.toString (e.getObjectArrayElement er).2
        (e.getObjectArrayElement er).1).1 with
    | error m =>
      simp only [hps]
      exact hp2
    | ok s =>
      simp only [hps]
      have hp3 := ih ((Tools.toString (e.getObjectArrayElement er).2
          (e.getObjectArrayElement er).1).2.deleteLocalRef (e.getObjectArrayElement er).1)
        (by simpa using hp2)
      cases hq : (Tools.toVectorStringLoop ((Tools.toString (e.getObjectArrayElement er).2
          (e.getObjectArrayElement er).1).2.deleteLocalRef
            (e.getObjectArrayElement er).1) rest).1 with
      | error m =>
        simp only [hq]
        exact hp3
      | ok ss =>
        simp only [hq]
        exact hp3

theorem toVectorStringLoop_reads (ers : List Nat) (strs : List String) (e : Env)
    (hwf : e.WF) (hp : e.pending = none)
    (h : List.Forall₂ (fun r s => r ≠ 0 ∧ e.heap r = some (.jstr s)) ers strs) :
    (Tools.toVectorStringLoop e ers).1 = .ok strs := by
  induction ers generalizing strs e with
  | nil =>
    cases h
    rfl
  | cons er rest ih =>
    rcases h with _ | @⟨_, s0, _, tl, hh, htail⟩
    obtain ⟨hne, hheap⟩ := hh
    have h0 : ¬ (e.nextRef = 0) := by have := hwf.pos; omega
    simp only [Tools.toVectorStringLoop]
    have hget : e.getObjectArrayElement er = e.newLocalRef (.jstr s0) := by
      unfold Env.getObjectArrayElement
      rw [if_neg hne, hheap]
    simp only [hget, newLocalRef_fst]
    have hts1 : (Tools.toString (e.newLocalRef (.jstr s0)).2 e.nextRef).1 = .ok s0 := by
      simp [Tools.toString, raiseOr, Tools.checkException, newLocalRef_heap, hp, h0]
    have hts2 : (Tools.toString (e.newLocalRef (.jstr s0)).2 e.nextRef).2
        = (e.newLocalRef (.jstr s0)).2 := by
      rw [toString_snd_eq, if_neg h0]
      exact pending_none_eta _ (by simp [hp])
    have hwf3 := WF_deleteLocalRef (WF_newLocalRef hwf (.jstr s0)) e.nextRef
    have htail3 : List.Forall₂
        (fun r s => r ≠ 0 ∧
          ((e.newLocalRef (.jstr s0)).2.deleteLocalRef e.nextRef).heap r = some (.jstr s))
        rest tl := by
      refine htail.imp ?_
      rintro r t ⟨h1, h2⟩
      refine ⟨h1, ?_⟩
      rw [deleteLocalRef_heap]
      exact newLocalRef_heap_preserve hwf _ h2
    have ihres := ih tl ((e.newLocalRef (.jstr s0)).2.deleteLocalRef e.nextRef) hwf3
      (by simp [hp]) htail3
    simp only [hts1, hts2, ihres]

theorem roundTripString_ok (e : Env) (hwf : e.WF) (hp : e.pending = none) (s : String) :
    roundTripString e s = .ok s := by
  have h0 : ¬ (e.nextRef = 0) := by have := hwf.pos; omega
  simp [roundTripString, Tools.toJString, Tools.toString, raiseOr, Tools.checkException,
    newLocalRef_heap, hp, h0]

theorem roundTripVecByte_ok (e : Env) (hwf : e.WF) (hp : e.pending = none) (l : List Nat) :
    roundTripVecByte e l = .ok l := by
  have h0 : ¬ (e.nextRef = 0) := by have := hwf.pos; omega
  have h1 : (Tools.toJByteArray e l).1 = .ok e.nextRef := by
    simp [Tools.toJByteArray, raiseOr, Tools.checkException, hp]
  have hheap : (Tools.toJByteArray e l).2.heap e.nextRef = some (.jbyteArr l) := by
    simp [Tools.toJByteArray, Env.setByteArrayRegion, newLocalRef_heap, setRef_heap]
  have hpend : (Tools.toJByteArray e l).2.pending = none := by
    simp [Tools.toJByteArray]
  simp only [roundTripVecByte, h1]
  simp [Tools.toVectorByte, h0, hheap, raiseOr, Tools.checkException, hpend]

theorem roundTripVecString_ok (e : Env) (hwf : e.WF) (hp : e.pending = none) (l : List String) :
    roundTripVecString e l = .ok l := by
  have hpos := hwf.pos
  have hwfA := WF_newLocalRef hwf (.jcls "java/lang/String")
  have hwfB := WF_newLocalRef hwfA (.jobjArr (List.replicate l.length 0))
  have harr0 : ((e.newLocalRef (.jcls "java/lang/String")).2.newLocalRef
      (.jobjArr (List.replicate l.length 0))).2.heap (e.nextRef + 1)
      = some (.jobjArr ([] ++ List.replicate l.length 0)) := by
    simp [newLocalRef_heap]
  obtain ⟨rs, k1, k2, k3, k4, k5⟩ :=
    toJObjectArrayLoop_points l (e.nextRef + 1) [] [] _ hwfB (by simp [hp])
      (by simp only [newLocalRef_nextRef]; omega) harr0 List.Forall₂.nil
  simp only [List.length_nil, List.nil_append] at k1 k2 k3 k4 k5
  have hOA1 : (Tools.toJObjectArray e l).1 = .ok (e.nextRef + 1) := by
    simp only [Tools.toJObjectArray, Env.findClass, newLocalRef_fst, newLocalRef_nextRef]
    simp [raiseOr, Tools.checkException, k4]
  have hOAsnd : (Tools.toJObjectArray e l).2
      = { (Tools.toJObjectArrayLoop (e.nextRef + 1) 0 l
            ((e.newLocalRef (.jcls "java/lang/String")).2.newLocalRef
              (.jobjArr (List.replicate l.length 0))).2).deleteLocalRef e.nextRef
          with pending := none } := by
    simp only [Tools.toJObjectArray, Env.findClass, newLocalRef_fst, newLocalRef_nextRef,
      raiseOr_snd, checkException_snd]
  have hread : (Tools.toVectorString (Tools.toJObjectArray e l).2 (e.nextRef + 1)).1
      = .ok l := by
    have hWFr : (Tools.toJObjectArray e l).2.WF := by
      rw [hOAsnd]
      exact WF_pending_none (WF_deleteLocalRef k3 e.nextRef)
    have hpr : (Tools.toJObjectArray e l).2.pending = none := by
      rw [hOAsnd]
    have hhr : (Tools.toJObjectArray e l).2.heap (e.nextRef + 1) = some (.jobjArr rs) := by
      rw [hOAsnd]
      exact k1
    have hfor : List.Forall₂
        (fun r s => r ≠ 0 ∧ (Tools.toJObjectArray e l).2.heap r = some (.jstr s)) rs l := by
      refine k2.imp ?_
      rintro r t ⟨h1, h2, h3⟩
      refine ⟨h1, ?_⟩
      rw [hOAsnd]
      exact h3
    have hloop := toVectorStringLoop_reads rs l (Tools.toJObjectArray e l).2 hWFr hpr hfor
    have ha0 : ¬ ((e.nextRef + 1) = 0) := by omega
    have hlp := toVectorStringLoop_pending rs (Tools.toJObjectArray e l).2 hpr
    simp only [Tools.toVectorString, if_neg ha0, hhr, hloop]
    simp [raiseOr, Tools.checkException, hlp]
  simp only [roundTripVecString, hOA1]
  exact hread

/-! ### Claim C5 -/

/-- C5 counterexample: the claim quantifies over every supported native type
including the string map, but the conversion templates give the map an
OUTBOUND conversor only (`CPPToJNIConversor<std::map<std::string,std::string>>`)
and no `JNIToCPPConversor` specialization, so the inbound leg of the map round
trip does not exist in the code and the claim fails at T = map (for example at
the empty map). -/
theorem c5_counterexample_map_has_no_inbound_conversor :
    hasOutboundConversor .tMap = true ∧ hasInboundConversor .tMap = false :=
  ⟨rfl, rfl⟩

/-- C5 (amended): for every native type supported in BOTH conversion
directions — strings, string sequences and byte sequences — outbound
conversion followed by inbound conversion returns the original value,
including the empty string and the empty sequences, and in particular order is
preserved for string sequences. -/
theorem c5_roundtrip_bidirectional_types (e : Env) (hwf : e.WF) (hp : e.pending = none) :
    (∀ s : String, roundTripString e s = .ok s)
    ∧ (∀ l : List String, roundTripVecString e l = .ok l)
    ∧ (∀ l : List Nat, roundTripVecByte e l = .ok l) :=
  ⟨fun s => roundTripString_ok e hwf hp s,
   fun l => roundTripVecString_ok e hwf hp l,
   fun l => roundTripVecByte_ok e hwf hp l⟩

/-- Witness for C5 at the pristine environment: the `["a", "b"]` sequence
round-trips with order preserved, and the empty string, empty string sequence
and empty byte sequence round-trip to themselves. -/
theorem c5_witness :
    roundTripVecString env0 ["a", "b"] = .ok ["a", "b"]
    ∧ roundTripString env0 "" = .ok ""
    ∧ roundTripVecString env0 [] = .ok []
    ∧ roundTripVecByte env0 [] = .ok [] :=
  ⟨(c5_roundtrip_bidirectional_types env0 ⟨by decide, fun r _ => rfl⟩ rfl).2.1 ["a", "b"],
   (c5_roundtrip_bidirectional_types env0 ⟨by decide, fun r _ => rfl⟩ rfl).1 "",
   (c5_roundtrip_bidirectional_types env0 ⟨by decide, fun r _ => rfl⟩ rfl).2.1 [],
   (c5_roundtrip_bidirectional_types env0 ⟨by decide, fun r _ => rfl⟩ rfl).2.2 []⟩

end safejni
